import Mathlib

/-!
Shallow embedding of the TRILL RBridge data plane from
net/bridge/rbridge/rbr.c (Linux_PE), together with proofs of the
behavioural claims about its receive, forwarding, replication,
encapsulation and decapsulation paths.

Packet buffers (struct sk_buff) are modelled as a byte list together with
the data and mac-header offsets; skb_push/skb_pull move the data offset
and memcpy-style writes edit the byte list in place.  Side effects
(counter bumps, frame emissions, local deliveries, fdb updates, frees)
are recorded as an ordered trace of actions, mirroring the order in
which the C code performs them.  Allocation outcomes (skb_clone,
skb_copy, skb_cow_head, vlan_insert_tag) are environment inputs.
The build modelled here is the one without CONFIG_TRILL_VNT, matching
the default paths of the source.
-/

namespace Trill

/-! ## Byte-buffer primitives -/

/-- Bytes read from a buffer starting at `off` (memcmp/memcpy source). -/
def readBytes (buf : List Nat) (off n : Nat) : List Nat :=
  (buf.drop off).take n

/-- One byte, 0 when out of range (the model never reads out of range on
the paths the theorems talk about). -/
def readByte (buf : List Nat) (i : Nat) : Nat := buf.getD i 0

/-- 16-bit big-endian (network order) read, as done for the TRILL header
fields. -/
def readBE16 (buf : List Nat) (off : Nat) : Nat :=
  readByte buf off * 256 + readByte buf (off + 1)

/-- 16-bit big-endian serialization (htons). -/
def be16 (n : Nat) : List Nat := [n / 256 % 256, n % 256]

/-- In-place write of `bs` at offset `off` (memcpy destination). -/
def writeBytes (buf : List Nat) (off : Nat) (bs : List Nat) : List Nat :=
  buf.take off ++ List.replicate (off - buf.length) 0 ++ bs ++ buf.drop (off + bs.length)

theorem writeBytes_prefix_length (buf : List Nat) (off : Nat) :
    (buf.take off ++ List.replicate (off - buf.length) 0).length = off := by
  simp only [List.length_append, List.length_take, List.length_replicate]
  omega

theorem writeBytes_eq (buf : List Nat) (off : Nat) (bs : List Nat) :
    writeBytes buf off bs =
      (buf.take off ++ List.replicate (off - buf.length) 0) ++
        (bs ++ buf.drop (off + bs.length)) := by
  simp [writeBytes]

theorem writeBytes_eq2 (buf : List Nat) (off : Nat) (bs : List Nat) :
    writeBytes buf off bs =
      ((buf.take off ++ List.replicate (off - buf.length) 0) ++ bs) ++
        buf.drop (off + bs.length) := by
  simp [writeBytes]

theorem drop_writeBytes_self (buf : List Nat) (off : Nat) (bs : List Nat) :
    (writeBytes buf off bs).drop off = bs ++ buf.drop (off + bs.length) := by
  rw [writeBytes_eq, List.drop_left' (writeBytes_prefix_length buf off)]

theorem drop_writeBytes_of_le (buf : List Nat) (off : Nat) (bs : List Nat) (k : Nat)
    (h : off + bs.length ≤ k) :
    (writeBytes buf off bs).drop k = buf.drop k := by
  rw [writeBytes_eq2, List.drop_append_eq_append_drop]
  have hlen : ((buf.take off ++ List.replicate (off - buf.length) 0) ++ bs).length
      = off + bs.length := by
    rw [List.length_append, writeBytes_prefix_length]
  rw [List.drop_eq_nil_of_le (by omega), hlen, List.nil_append, List.drop_drop]
  congr 1
  omega

theorem readByte_writeBytes_lt (buf : List Nat) (off : Nat) (bs : List Nat) (i : Nat)
    (h : i < off) :
    readByte (writeBytes buf off bs) i = readByte buf i := by
  unfold readByte
  simp only [List.getD_eq_getElem?_getD]
  rw [writeBytes_eq,
      List.getElem?_append_left (by rw [writeBytes_prefix_length]; exact h)]
  by_cases hb : i < buf.length
  · rw [List.getElem?_append_left (by simp only [List.length_take]; omega),
        List.getElem?_take_of_lt h]
  · rw [List.getElem?_append_right (by simp only [List.length_take]; omega)]
    rw [List.getElem?_replicate]
    rw [if_pos (by simp only [List.length_take]; omega)]
    rw [List.getElem?_eq_none (by omega)]
    rfl

theorem readByte_writeBytes_in (buf : List Nat) (off : Nat) (bs : List Nat) (k : Nat)
    (h : k < bs.length) :
    readByte (writeBytes buf off bs) (off + k) = readByte bs k := by
  unfold readByte
  simp only [List.getD_eq_getElem?_getD]
  calc (writeBytes buf off bs)[off + k]?.getD 0
      = ((writeBytes buf off bs).drop off)[k]?.getD 0 := by
        rw [List.getElem?_drop]
    _ = bs[k]?.getD 0 := by
        rw [drop_writeBytes_self, List.getElem?_append_left h]

theorem readByte_writeBytes_ge (buf : List Nat) (off : Nat) (bs : List Nat) (i : Nat)
    (h : off + bs.length ≤ i) :
    readByte (writeBytes buf off bs) i = readByte buf i := by
  unfold readByte
  simp only [List.getD_eq_getElem?_getD]
  calc (writeBytes buf off bs)[i]?.getD 0
      = ((writeBytes buf off bs).drop i)[0]?.getD 0 := by
        rw [List.getElem?_drop, Nat.add_zero]
    _ = (buf.drop i)[0]?.getD 0 := by
        rw [drop_writeBytes_of_le buf off bs i h]
    _ = buf[i]?.getD 0 := by
        rw [List.getElem?_drop, Nat.add_zero]

theorem readBE16_writeBytes_lt (buf : List Nat) (off : Nat) (bs : List Nat) (i : Nat)
    (h : i + 2 ≤ off) :
    readBE16 (writeBytes buf off bs) i = readBE16 buf i := by
  unfold readBE16
  rw [readByte_writeBytes_lt buf off bs i (by omega),
      readByte_writeBytes_lt buf off bs (i + 1) (by omega)]

theorem readBE16_writeBytes_ge (buf : List Nat) (off : Nat) (bs : List Nat) (i : Nat)
    (h : off + bs.length ≤ i) :
    readBE16 (writeBytes buf off bs) i = readBE16 buf i := by
  unfold readBE16
  rw [readByte_writeBytes_ge buf off bs i (by omega),
      readByte_writeBytes_ge buf off bs (i + 1) (by omega)]

theorem readBE16_be16 (buf : List Nat) (off n : Nat) (h : n < 65536) :
    readBE16 (writeBytes buf off (be16 n)) off = n := by
  have h0 := readByte_writeBytes_in buf off (be16 n) 0 (by simp [be16])
  have h1 := readByte_writeBytes_in buf off (be16 n) 1 (by simp [be16])
  simp only [Nat.add_zero] at h0
  unfold readBE16
  rw [h0, h1]
  have hb0 : readByte (be16 n) 0 = n / 256 % 256 := rfl
  have hb1 : readByte (be16 n) 1 = n % 256 := rfl
  rw [hb0, hb1]
  have hd : n / 256 < 256 := by omega
  rw [Nat.mod_eq_of_lt hd]
  have := Nat.div_add_mod n 256
  omega

theorem writeBytes_length_ge (buf : List Nat) (off : Nat) (bs : List Nat) :
    off + bs.length ≤ (writeBytes buf off bs).length := by
  rw [writeBytes_eq2]
  simp only [List.length_append, List.length_take, List.length_replicate, List.length_drop]
  omega

theorem readBytes_writeBytes_at (buf : List Nat) (off : Nat) (bs : List Nat) :
    readBytes (writeBytes buf off bs) off bs.length = bs := by
  unfold readBytes
  rw [drop_writeBytes_self]
  exact List.take_left bs _

theorem readBytes_writeBytes_ge (buf : List Nat) (off : Nat) (bs : List Nat)
    (o n : Nat) (h : off + bs.length ≤ o) :
    readBytes (writeBytes buf off bs) o n = readBytes buf o n := by
  unfold readBytes
  rw [drop_writeBytes_of_le buf off bs o h]

theorem readBytes_writeBytes_below (buf : List Nat) (off : Nat) (bs : List Nat)
    (o n : Nat) (hbuf : off ≤ buf.length) (h : o + n ≤ off) :
    readBytes (writeBytes buf off bs) o n = readBytes buf o n := by
  unfold readBytes
  rw [writeBytes_eq]
  have hrep : off - buf.length = 0 := by omega
  rw [hrep]
  simp only [List.replicate, List.append_nil]
  have htlen : (buf.take off).length = off := by
    simp only [List.length_take]
    omega
  rw [List.drop_append_eq_append_drop, htlen]
  have ho0 : o - off = 0 := by omega
  rw [ho0, List.drop_zero, List.take_append_eq_append_take]
  have hdlen : ((buf.take off).drop o).length = off - o := by
    simp only [List.length_drop, htlen]
  rw [hdlen]
  have hn0 : n - (off - o) = 0 := by omega
  rw [hn0, List.take_zero, List.append_nil, List.drop_take, List.take_take]
  have hmin : min n (off - o) = n := by omega
  rw [hmin]

/-- Dropping past a replicate prefix. -/
theorem drop_replicate_append (k j : Nat) (c : Nat) (l : List Nat) (h : k ≤ j) :
    (List.replicate k c ++ l).drop j = l.drop (j - k) := by
  rw [List.drop_append_eq_append_drop]
  rw [List.drop_eq_nil_of_le (by simp; omega)]
  simp

/-! ## Nicknames and the TRILL header codec

Modelled from the spec: the nickname constants and the flag-word
accessors live in rbr_private.h / if_trill.h, which are not part of the
repository snapshot.  Spec §3 fixes `valid(nick)` ⟺ nick ∉ {NICK_NONE,
reserved_max}; §4.3 fixes the flags layout (version 2b, reserved 2b,
multi-destination 1b, opt-len 5b in 4-octet units, hop count 6b) and
§4.9 fixes `trh_size = 8 + opt_len * 4`. -/

def RBRIDGE_NICKNAME_NONE : Nat := 0
def RBRIDGE_NICKNAME_MIN : Nat := 1
def RBRIDGE_NICKNAME_MAX : Nat := 65535

/-- Modelled from the spec: `valid(nick)` holds iff the nickname is
neither NICK_NONE nor the all-ones sentinel (spec §3). -/
def VALID_NICK (n : Nat) : Prop :=
  n ≠ RBRIDGE_NICKNAME_NONE ∧ n ≠ RBRIDGE_NICKNAME_MAX

instance (n : Nat) : Decidable (VALID_NICK n) := by
  unfold VALID_NICK
  infer_instance

/-- Modelled from the spec: the protocol version constant (§4.3, a fixed
constant; TRILL uses version 0). -/
def TRILL_PROTOCOL_VERS : Nat := 0

/-- Modelled from the spec: the configured default hop count used on
fresh encapsulation (§4.3). -/
def TRILL_DEFAULT_HOPS : Nat := 10

def ETH_HLEN : Nat := 14
def ETH_P_TRILL : Nat := 0x22F3

/-- Modelled from the spec: sizeof the TRILL shim header, per §4.9
(`trh_size = 8 + opt_len * 4`). -/
def TRILL_HDR_SIZE : Nat := 8

/-- Modelled from the spec: hop count is the low 6 bits of the flags
word. -/
def trill_get_hopcount (f : Nat) : Nat := f % 64

/-- Modelled from the spec: opt-len is 5 bits above the hop count, in
4-octet units; the accessor yields bytes. -/
def trill_get_optslen (f : Nat) : Nat := (f / 64) % 32 * 4

/-- Modelled from the spec: the multi-destination bit sits above the
opt-len field. -/
def trill_get_multidest (f : Nat) : Nat := (f / 2048) % 2

/-- Modelled from the spec: the version is the top 2 bits. -/
def trill_get_version (f : Nat) : Nat := (f / 16384) % 4

def trill_set_hopcount (h : Nat) : Nat := h % 64
def trill_set_optslen (bytes : Nat) : Nat := (bytes / 4) % 32 * 64
def trill_set_multidest (m : Nat) : Nat := m % 2 * 2048
def trill_set_version (v : Nat) : Nat := v % 4 * 16384

/-- Modelled from the spec: decrement the hop-count field in place
(§4.5 step 2), leaving the other flag fields unchanged. -/
def trill_dec_hopcount (f : Nat) : Nat := f / 64 * 64 + (f % 64 - 1)

/-! ## Data model -/

/-- struct rbr_nickinfo: the control-plane descriptor of one remote
RBridge (adjacency SNPA MAC, adjacency nicknames, advertised
distribution-tree roots). -/
structure RbrNi where
  adjsnpa : List Nat
  adjnicks : List Nat
  dtroots : List Nat
deriving DecidableEq, Repr

/-- struct rbr: the per-bridge RBridge state (reference counting of
rbr_node is dropped: lookups in the pure model always see the installed
entry). -/
structure Rbr where
  nick : Nat
  treeroot : Nat
  nodes : Nat → Option RbrNi

/-- An fdb entry, reduced to what the data plane reads from it: the MAC
of the destination port's device. -/
structure FdbE where
  devAddr : List Nat
deriving DecidableEq, Repr

/-- The external collaborators and allocation outcomes of one handler
invocation: the receiving port's MAC, the bridge device's MAC, the fdb
lookup, and whether each fallible allocation succeeds. -/
structure Env where
  portDevAddr : List Nat
  brDevAddr : List Nat
  fdbGet : List Nat → Nat → Option FdbE
  cloneOk : Bool
  copyOk : Bool
  vlanOk : Bool
  cowOk : Bool

/-- struct sk_buff, reduced to the parts the data plane touches: the
byte buffer, the data and mac-header offsets into it, the encapsulation
flag, the accelerated VLAN tag and the protocol field. -/
structure Skb where
  buf : List Nat
  dataOff : Nat
  macOff : Nat
  encap : Bool
  vlan_tci : Option Nat
  vlan_proto : Nat
  protocol : Nat
deriving DecidableEq, Repr

def skb_push (skb : Skb) (n : Nat) : Skb := { skb with dataOff := skb.dataOff - n }
def skb_pull (skb : Skb) (n : Nat) : Skb := { skb with dataOff := skb.dataOff + n }
def skb_reset_mac_header (skb : Skb) : Skb := { skb with macOff := skb.dataOff }

/-- skb_cow_head: guarantee `n` bytes of headroom; modelled as a
reallocation that prepends `n` bytes and shifts the offsets. -/
def skb_cow_head (skb : Skb) (n : Nat) : Skb :=
  { skb with buf := List.replicate n 0 ++ skb.buf,
             dataOff := skb.dataOff + n, macOff := skb.macOff + n }

/-- Write `bs` into the buffer at `off`. -/
def writeB (skb : Skb) (off : Nat) (bs : List Nat) : Skb :=
  { skb with buf := writeBytes skb.buf off bs }

/-- vlan_insert_tag: reinsert the accelerated 802.1Q tag inline after
the MAC addresses of the current frame. -/
def vlan_insert_tag (skb : Skb) (tci : Nat) : Skb :=
  let macs := readBytes skb.buf skb.dataOff 12
  let rest := skb.buf.drop (skb.dataOff + 12)
  { skb with buf := skb.buf.take (skb.dataOff - 4) ++ macs ++ be16 skb.vlan_proto ++ be16 tci ++ rest,
             dataOff := skb.dataOff - 4 }

/-- The observable side effects of one handler invocation, in program
order: statistics bumps, frame emissions (through br_forward or
br_trill_flood_forward, tagged with whether the buffer is the
invocation's own buffer or an skb_copy, and with the next-hop
nickname), local deliveries, fdb updates and frees. -/
inductive Action where
  | rxDrop : Action
  | txDrop : Action
  | free (orig : Bool) : Action
  | emitted (orig : Bool) (nick : Nat) (viaFdb : Bool) (skb : Skb) : Action
  | deliver (portAddr : List Nat) (skb : Skb) : Action
  | endstationDeliver (skb : Skb) : Action
  | fdbUpdate (mac : List Nat) (vid : Nat) : Action
  | fdbUpdateNick (mac : List Nat) (vid : Nat) (nick : Nat) : Action
deriving DecidableEq, Repr

/-! ## Node lookup -/

/-- rbr_find_node: nickname-indexed neighbour lookup; none for invalid
nicknames or empty slots.  The reference count taken by the C code is
dropped: the pure model returns the descriptor itself. -/
def rbr_find_node (rbr : Rbr) (nickname : Nat) : Option RbrNi :=
  if VALID_NICK nickname then rbr.nodes nickname else none

/-! ## Unicast forward (rbr_fwd / rbr_fwd_finish) -/

/-- rbr_fwd_finish: consult the fdb for the (rewritten) outer
destination; on a hit overwrite the outer source with the selected
port's MAC and br_forward, otherwise br_trill_flood_forward. -/
def rbr_fwd_finish (env : Env) (skb : Skb) (nick : Nat) (vid : Nat) (orig : Bool) :
    List Action :=
  let dest := readBytes skb.buf skb.macOff 6
  match env.fdbGet dest vid with
  | some e => [Action.emitted orig nick true (writeB skb (skb.macOff + 6) e.devAddr)]
  | none => [Action.emitted orig nick false skb]

/-- rbr_fwd: unicast next-hop forward.  Look up the adjacency, decrement
the hop count in place, rewrite outer source (bridge MAC) and outer
destination (adjacency SNPA), then hand off. -/
def rbr_fwd (env : Env) (rbr : Rbr) (skb : Skb) (adj_nick : Nat) (vid : Nat)
    (orig : Bool) : List Action :=
  match rbr_find_node rbr adj_nick with
  | none => [Action.txDrop, Action.free orig]
  | some adj =>
    let flags := readBE16 skb.buf skb.dataOff
    let skb1 := writeB skb skb.dataOff (be16 (trill_dec_hopcount flags))
    let skb2 := writeB skb1 (skb1.macOff + 6) env.brDevAddr
    let skb3 := writeB skb2 skb2.macOff adj.adjsnpa
    rbr_fwd_finish env skb3 adj_nick vid orig

/-! ## Multi-destination replication (rbr_multidest_fwd) -/

/-- The adjacency loop of rbr_multidest_fwd.  Walks the DT root's
adjacency list carrying the `nicksaved`/`adjnicksaved` state; returns
the emitted actions, the final saved state, and whether the loop ran to
completion (false = skb_copy failed mid-loop). -/
def mdLoop (env : Env) (rbr : Rbr) (skb : Skb) (ingressnick : Nat)
    (saddr : Option (List Nat)) (vid : Nat) (free : Bool) :
    List Nat → Bool → Nat → List Action × Bool × Nat × Bool
  | [], nicksaved, snick => ([], nicksaved, snick, true)
  | adjnick :: rest, nicksaved, snick =>
    if ingressnick = adjnick then
      mdLoop env rbr skb ingressnick saddr vid free rest nicksaved snick
    else
      match rbr_find_node rbr adjnick with
      | none => mdLoop env rbr skb ingressnick saddr vid free rest nicksaved snick
      | some adj =>
        if saddr = some adj.adjsnpa then
          mdLoop env rbr skb ingressnick saddr vid free rest nicksaved snick
        else if ¬nicksaved ∧ free then
          mdLoop env rbr skb ingressnick saddr vid free rest true adjnick
        else if env.copyOk then
          let acts := rbr_fwd env rbr skb adjnick vid false
          let r := mdLoop env rbr skb ingressnick saddr vid free rest nicksaved snick
          (acts ++ r.1, r.2)
        else ([Action.txDrop], nicksaved, snick, false)

/-- rbr_multidest_fwd: replication along the distribution tree rooted at
`egressnick`, with source-MAC pruning and the defer-first-adjacency
optimisation; returns the action trace and true for the 0 return of the
C function (false = the -1 failure return). -/
def rbr_multidest_fwd (env : Env) (rbr : Rbr) (skb : Skb) (egressnick ingressnick : Nat)
    (saddr : Option (List Nat)) (vid : Nat) (free orig : Bool) : List Action × Bool :=
  match rbr_find_node rbr egressnick with
  | none => ([Action.txDrop, Action.free orig], false)
  | some dest =>
    match mdLoop env rbr skb ingressnick saddr vid free dest.adjnicks false 0 with
    | (acts, nicksaved, snick, ok) =>
      if ok then
        if nicksaved then (acts ++ rbr_fwd env rbr skb snick vid orig, true)
        else (acts ++ [Action.free orig], true)
      else (acts ++ [Action.txDrop, Action.free orig], false)

/-! ## Encapsulation (rbr_encaps / rbr_encaps_prepare) -/

/-- The flags word rbr_encaps assembles: protocol version, default hop
count, and the multi-destination bit. -/
def encapsFlags (multidest : Bool) : Nat :=
  trill_set_version TRILL_PROTOCOL_VERS + trill_set_hopcount TRILL_DEFAULT_HOPS +
    trill_set_multidest (if multidest then 1 else 0)

/-- The tail of rbr_encaps after the VLAN reinsertion: headroom
guarantee, TRILL header push, outer Ethernet push. -/
def rbr_encaps_body (env : Env) (skb : Skb) (ingressnick egressnick : Nat)
    (multidest : Bool) : Option Skb :=
  if env.cowOk then
    let skb := skb_cow_head skb (TRILL_HDR_SIZE + ETH_HLEN)
    let skb := skb_push skb TRILL_HDR_SIZE
    let skb := writeB skb skb.dataOff
      (be16 (encapsFlags multidest) ++ be16 egressnick ++ be16 ingressnick ++ [0, 0])
    let skb := skb_push skb ETH_HLEN
    let skb := skb_reset_mac_header skb
    let skb := writeB skb (skb.macOff + 12) (be16 ETH_P_TRILL)
    let skb := skb_pull skb ETH_HLEN
    some skb
  else none

/-- rbr_encaps: push back over the inner Ethernet header, reinsert an
accelerated VLAN tag if present, then push TRILL and outer Ethernet
headers.  none models the 1 (failure) return, after which the caller
drops. -/
def rbr_encaps (env : Env) (skb : Skb) (ingressnick egressnick : Nat)
    (multidest : Bool) : Option Skb :=
  let skb1 := skb_push skb ETH_HLEN
  let skb2 := { skb1 with encap := true }
  match skb2.vlan_tci with
  | some tci =>
    if env.vlanOk then
      rbr_encaps_body env
        { vlan_insert_tag skb2 tci with vlan_proto := 0, vlan_tci := none }
        ingressnick egressnick multidest
    else none
  | none => rbr_encaps_body env skb2 ingressnick egressnick multidest

/-- The distribution-tree root chosen by rbr_encaps_prepare for a flood:
dt_roots[0] of the local node's descriptor when it advertises any,
otherwise the per-bridge tree root. -/
def encapsDtrNick (rbr : Rbr) (ni : RbrNi) : Nat :=
  if 0 < ni.dtroots.length then ni.dtroots.headD 0 else rbr.treeroot

/-- rbr_encaps_prepare: ingress-side dispatch.  NICK_NONE egress floods
on the distribution tree (clone for local end stations first, then
encapsulate and replicate); a concrete egress nickname encapsulates and
unicast-forwards. -/
def rbr_encaps_prepare (env : Env) (rbr : Rbr) (skb : Skb) (egressnick : Nat)
    (vid : Nat) : List Action :=
  if egressnick ≠ RBRIDGE_NICKNAME_NONE ∧ ¬VALID_NICK egressnick then
    [Action.txDrop, Action.free true]
  else if ¬VALID_NICK rbr.nick then [Action.txDrop, Action.free true]
  else if egressnick = RBRIDGE_NICKNAME_NONE then
    match rbr_find_node rbr rbr.nick with
    | none => [Action.txDrop, Action.free true]
    | some self =>
      if ¬VALID_NICK (encapsDtrNick rbr self) then [Action.txDrop, Action.free true]
      else if ¬env.cloneOk then [Action.txDrop, Action.txDrop, Action.free true]
      else
        Action.endstationDeliver skb ::
          match rbr_encaps env skb rbr.nick (encapsDtrNick rbr self) true with
          | none => [Action.txDrop, Action.free true]
          | some skb1 =>
            (rbr_multidest_fwd env rbr skb1 (encapsDtrNick rbr self) rbr.nick
              none vid true true).1
  else
    match rbr_encaps env skb rbr.nick egressnick false with
    | none => [Action.txDrop, Action.free true]
    | some skb1 => rbr_fwd env rbr skb1 egressnick vid true

/-! ## Decapsulation (rbr_decaps / rbr_decap_finish) -/

/-- rbr_decap_finish: local delivery of the decapsulated frame, by fdb
hit (br_deliver) or end-station flood (br_endstation_deliver). -/
def rbr_decap_finish (env : Env) (skb : Skb) (vid : Nat) : List Action :=
  let dst := readBytes skb.buf skb.macOff 6
  match env.fdbGet dst vid with
  | some e => [Action.deliver e.devAddr skb]
  | none => [Action.endstationDeliver skb]

/-- rbr_decaps: strip the TRILL header, make the inner frame current,
record the {inner source MAC, vid, ingress nickname} learning hint, and
deliver locally. -/
def rbr_decaps (env : Env) (skb : Skb) (trhsize : Nat) (vid : Nat) (orig : Bool) :
    List Action :=
  let trhOff := skb.dataOff
  if TRILL_HDR_SIZE ≤ trhsize then
    let skb := skb_pull skb TRILL_HDR_SIZE
    let skb := skb_reset_mac_header skb
    let skb := { skb with protocol := readBE16 skb.buf (skb.macOff + 12) }
    let hdrOff := skb.dataOff
    let skb := skb_pull skb ETH_HLEN
    let skb := { skb with encap := false }
    Action.fdbUpdateNick (readBytes skb.buf (hdrOff + 6) 6) vid (readBE16 skb.buf (trhOff + 4)) ::
      rbr_decap_finish env skb vid
  else [Action.rxDrop, Action.free orig]

/-! ## Receive entry (rbr_recv) -/

/-- The source-adjacency policing of the multi-destination receive path:
the outer source MAC must be the SNPA of some adjacency on the chosen
distribution tree. -/
def rbr_adj_src_check (rbr : Rbr) (dest : RbrNi) (srcaddr : List Nat) : Bool :=
  dest.adjnicks.any fun a =>
    match rbr_find_node rbr a with
    | some adj => decide (adj.adjsnpa = srcaddr)
    | none => false

/-- The tail of the multi-destination receive path after the adjacency
and RPF checks: hop-count gate, clone for replication, local
decapsulation of the original. -/
def rbr_recv_mdest_tail (env : Env) (rbr : Rbr) (skb : Skb) (flags egr ing : Nat)
    (srcaddr : List Nat) (trhsize vid : Nat) : List Action :=
  if trill_get_hopcount flags = 0 then [Action.rxDrop, Action.free true]
  else if env.cloneOk then
    match rbr_multidest_fwd env rbr skb egr ing (some srcaddr) vid false false with
    | (acts, ok) =>
      if ok then acts ++ rbr_decaps env skb trhsize vid true
      else acts ++ [Action.rxDrop, Action.free true]
  else [Action.txDrop, Action.rxDrop, Action.free true]

/-- The nickname/version/self-loop/extension checks and the
unicast/multi-destination dispatch of rbr_recv, after the header fields
have been parsed (`srcaddr`, `flags`, `ing`, `egr`, `trhsize` are the
values the C code reads from the frame). -/
def rbr_recv_body (env : Env) (rbr : Rbr) (skb : Skb) (srcaddr : List Nat)
    (flags ing egr trhsize vid : Nat) : List Action :=
  if ¬(VALID_NICK ing ∧ VALID_NICK egr) then [Action.rxDrop, Action.free true]
  else if trill_get_version flags ≠ TRILL_PROTOCOL_VERS then
    [Action.rxDrop, Action.free true]
  else if ing = rbr.nick then [Action.rxDrop, Action.free true]
  else if trill_get_optslen flags ≠ 0 then [Action.rxDrop, Action.free true]
  else if trill_get_multidest flags = 0 then
    if egr = ing then [Action.rxDrop, Action.free true]
    else if egr = rbr.nick then rbr_decaps env skb trhsize vid true
    else if trill_get_hopcount flags ≠ 0 then
      Action.fdbUpdate srcaddr vid :: rbr_fwd env rbr skb egr vid true
    else [Action.rxDrop, Action.free true]
  else
    match rbr_find_node rbr egr with
    | none => [Action.rxDrop, Action.free true]
    | some dest =>
      if ¬rbr_adj_src_check rbr dest srcaddr then [Action.rxDrop, Action.free true]
      else
        match rbr_find_node rbr ing with
        | none => [Action.rxDrop, Action.free true]
        | some source_node =>
          if egr ∈ source_node.dtroots then
            rbr_recv_mdest_tail env rbr skb flags egr ing srcaddr trhsize vid
          else if source_node.dtroots ≠ [] ∨ egr ≠ rbr.treeroot then
            [Action.rxDrop, Action.free true]
          else rbr_recv_mdest_tail env rbr skb flags egr ing srcaddr trhsize vid

/-- rbr_recv: the TRILL receive path for a frame entering a fabric port
with EtherType TRILL (spec §4.9). -/
def rbr_recv (env : Env) (rbr : Rbr) (skb : Skb) (vid : Nat) : List Action :=
  if readBytes skb.buf skb.macOff 6 ≠ env.portDevAddr then
    [Action.rxDrop, Action.free true]
  else if skb.buf.length - skb.dataOff <
      TRILL_HDR_SIZE + trill_get_optslen (readBE16 skb.buf skb.dataOff) + ETH_HLEN then
    [Action.rxDrop, Action.free true]
  else
    rbr_recv_body env rbr { skb with encap := true }
      (readBytes skb.buf (skb.macOff + 6) 6)
      (readBE16 skb.buf skb.dataOff)
      (readBE16 skb.buf (skb.dataOff + 4))
      (readBE16 skb.buf (skb.dataOff + 2))
      (TRILL_HDR_SIZE + trill_get_optslen (readBE16 skb.buf skb.dataOff)) vid

/-! ## Per-bridge lifecycle (add_rbr / br_trill_start / br_trill_stop /
br_trill_set_enabled / set_treeroot) -/

/-- struct net_bridge, reduced to what the TRILL enable/disable path
touches. -/
structure NetBridge where
  trill_enabled : Bool
  stp_enabled : Bool
  rbr : Option Rbr

/-- add_rbr: return the existing per-bridge RBridge state, or allocate a
fresh one with both nicknames NICK_NONE. -/
def add_rbr (allocOk : Bool) (br : NetBridge) : Option Rbr :=
  match br.rbr with
  | some r => some r
  | none =>
    if allocOk then
      some { nick := RBRIDGE_NICKNAME_NONE, treeroot := RBRIDGE_NICKNAME_NONE,
             nodes := fun _ => none }
    else none

/-- br_trill_start: stop STP if running, attach (or keep) the RBridge
state, set the enable flag; on allocation failure leave the bridge
disabled. -/
def br_trill_start (allocOk : Bool) (br : NetBridge) : NetBridge :=
  let br1 := if br.stp_enabled then { br with stp_enabled := false } else br
  match add_rbr allocOk br1 with
  | some r => { br1 with rbr := some r, trill_enabled := true }
  | none => { br1 with rbr := none }

/-- br_trill_stop: clear the enable flag, detach and destroy the RBridge
state (rbr_del_all then kfree). -/
def br_trill_stop (br : NetBridge) : NetBridge :=
  { br with trill_enabled := false, rbr := none }

/-- br_trill_set_enabled: enable or disable TRILL on a bridge; a no-op
when the requested state already holds. -/
def br_trill_set_enabled (allocOk : Bool) (val : Bool) (br : NetBridge) : NetBridge :=
  if val then
    if br.trill_enabled = false then br_trill_start allocOk br else br
  else
    if br.trill_enabled ≠ false then br_trill_stop br else br

/-- set_treeroot: reject invalid nicknames with ENOENT, otherwise update
the tree root (the 0 return is modelled as the updated state). -/
def set_treeroot (rbr : Rbr) (treeroot : Nat) : Option Rbr :=
  if ¬VALID_NICK treeroot then none
  else if rbr.treeroot ≠ treeroot then some { rbr with treeroot := treeroot }
  else some rbr

/-! ## Derived observables and well-formedness predicates -/

/-- A buffer whose cells are genuine octets. -/
def BufWF (buf : List Nat) : Prop := ∀ b ∈ buf, b < 256

/-- Every installed neighbour's SNPA is a 6-octet MAC. -/
def RbrWF (rbr : Rbr) : Prop :=
  ∀ n ni, rbr.nodes n = some ni → ni.adjsnpa.length = 6

/-- `s` is handed to one of the bridge's local-delivery primitives in
the trace `tr`. -/
def deliveredSkb (s : Skb) (tr : List Action) : Prop :=
  Action.endstationDeliver s ∈ tr ∨ ∃ pa, Action.deliver pa s ∈ tr

/-- The (origin-tag, next-hop nickname) sequence of the frames a trace
emits. -/
def emissionsOf : List Action → List (Bool × Nat)
  | [] => []
  | Action.emitted o n _ _ :: t => (o, n) :: emissionsOf t
  | _ :: t => emissionsOf t

/-- An adjacency survives the skip tests of the replication loop:
valid/present in the table, not the ingress nickname, and not matching
the pruned source MAC. -/
def survives (rbr : Rbr) (ingressnick : Nat) (saddr : Option (List Nat)) (a : Nat) :
    Bool :=
  if ingressnick = a then false
  else
    match rbr_find_node rbr a with
    | none => false
    | some adj => decide (saddr ≠ some adj.adjsnpa)

/-- Propositional form of `survives`. -/
def survivesP (rbr : Rbr) (ingressnick : Nat) (saddr : Option (List Nat)) (a : Nat) :
    Prop :=
  ingressnick ≠ a ∧ ∃ adj, rbr_find_node rbr a = some adj ∧ saddr ≠ some adj.adjsnpa

theorem survives_iff (rbr : Rbr) (ingressnick : Nat) (saddr : Option (List Nat))
    (a : Nat) : survives rbr ingressnick saddr a = true ↔ survivesP rbr ingressnick saddr a := by
  unfold survives survivesP
  split
  · simp_all
  · rcases h : rbr_find_node rbr a with _ | adj <;> simp_all

/-- The early validity checks of rbr_recv (outer destination matches the
port, enough linear data, valid nicknames, version match, no unknown
extension), as one predicate on the inputs. -/
def recvPrechecksOk (env : Env) (rbr : Rbr) (skb : Skb) : Prop :=
  readBytes skb.buf skb.macOff 6 = env.portDevAddr ∧
  TRILL_HDR_SIZE + trill_get_optslen (readBE16 skb.buf skb.dataOff) + ETH_HLEN ≤
    skb.buf.length - skb.dataOff ∧
  VALID_NICK (readBE16 skb.buf (skb.dataOff + 4)) ∧
  VALID_NICK (readBE16 skb.buf (skb.dataOff + 2)) ∧
  trill_get_version (readBE16 skb.buf skb.dataOff) = TRILL_PROTOCOL_VERS ∧
  readBE16 skb.buf (skb.dataOff + 4) ≠ rbr.nick ∧
  trill_get_optslen (readBE16 skb.buf skb.dataOff) = 0

instance (env : Env) (rbr : Rbr) (skb : Skb) : Decidable (recvPrechecksOk env rbr skb) := by
  unfold recvPrechecksOk
  infer_instance

/-! ## Concrete test fixtures (used by the witness theorems) -/

/-- A concrete environment: port MAC 01:…:01, bridge MAC 09:…:09, empty
fdb, all allocations succeed. -/
def envW : Env :=
  { portDevAddr := [1, 1, 1, 1, 1, 1], brDevAddr := [9, 9, 9, 9, 9, 9],
    fdbGet := fun _ _ => none, cloneOk := true, copyOk := true,
    vlanOk := true, cowOk := true }

/-- A concrete RBridge state: local nickname 2, tree root 7, one
neighbour (nickname 3, SNPA 03:…:03). -/
def rbrW : Rbr :=
  { nick := 2, treeroot := 7,
    nodes := fun n =>
      if n = 3 then some { adjsnpa := [3, 3, 3, 3, 3, 3], adjnicks := [], dtroots := [] }
      else none }

/-- A concrete RBridge state for replication tests: tree root 4 whose
adjacencies are nicknames 3 and 5. -/
def rbrM : Rbr :=
  { nick := 2, treeroot := 4,
    nodes := fun n =>
      if n = 4 then some { adjsnpa := [4, 4, 4, 4, 4, 4], adjnicks := [3, 5], dtroots := [] }
      else if n = 3 then some { adjsnpa := [3, 3, 3, 3, 3, 3], adjnicks := [], dtroots := [] }
      else if n = 5 then some { adjsnpa := [5, 5, 5, 5, 5, 5], adjnicks := [], dtroots := [] }
      else if n = 2 then some { adjsnpa := [2, 2, 2, 2, 2, 2], adjnicks := [], dtroots := [] }
      else none }

/-- envW with a failing skb_cow_head (headroom allocation failure). -/
def envW_nocow : Env := { envW with cowOk := false }

/-- A concrete received TRILL frame: outer dest = port MAC, outer source
08:…:08, EtherType TRILL, flags with hop count 1, egress 3, ingress 5,
then a 14-byte inner frame. -/
def skbW : Skb :=
  { buf := [1, 1, 1, 1, 1, 1, 8, 8, 8, 8, 8, 8, 0x22, 0xF3,
            0, 1, 0, 3, 0, 5, 0, 0,
            7, 7, 7, 7, 7, 7, 6, 6, 6, 6, 6, 6, 0, 42, 0, 0],
    dataOff := 14, macOff := 0, encap := false, vlan_tci := none,
    vlan_proto := 0, protocol := 0 }

/-- Like skbW but hop count 0, egress = the local nickname 2. -/
def skbW_hop0_local : Skb :=
  { skbW with buf := [1, 1, 1, 1, 1, 1, 8, 8, 8, 8, 8, 8, 0x22, 0xF3,
            0, 0, 0, 2, 0, 5, 0, 0,
            7, 7, 7, 7, 7, 7, 6, 6, 6, 6, 6, 6, 0, 42, 0, 0] }

/-- Like skbW but ingress = the local nickname 2. -/
def skbW_selfloop : Skb :=
  { skbW with buf := [1, 1, 1, 1, 1, 1, 8, 8, 8, 8, 8, 8, 0x22, 0xF3,
            0, 1, 0, 3, 0, 2, 0, 0,
            7, 7, 7, 7, 7, 7, 6, 6, 6, 6, 6, 6, 0, 42, 0, 0] }

/-- Like skbW but hop count 0, egress 3 (a transit destination). -/
def skbW_hop0_transit : Skb :=
  { skbW with buf := [1, 1, 1, 1, 1, 1, 8, 8, 8, 8, 8, 8, 0x22, 0xF3,
            0, 0, 0, 3, 0, 5, 0, 0,
            7, 7, 7, 7, 7, 7, 6, 6, 6, 6, 6, 6, 0, 42, 0, 0] }

/-- The frame skbW_hop0_local after decapsulation (inner frame current,
encapsulation flag cleared). -/
def skbW_hop0_local_out : Skb :=
  { buf := skbW_hop0_local.buf, dataOff := 36, macOff := 22, encap := false,
    vlan_tci := none, vlan_proto := 0, protocol := 42 }

/-- Like skbW but hop count 1, egress = the local nickname 2. -/
def skbW_hop1_local : Skb :=
  { skbW with buf := [1, 1, 1, 1, 1, 1, 8, 8, 8, 8, 8, 8, 0x22, 0xF3,
            0, 1, 0, 2, 0, 5, 0, 0,
            7, 7, 7, 7, 7, 7, 6, 6, 6, 6, 6, 6, 0, 42, 0, 0] }

/-- The frame skbW as emitted by the unicast Forwarder: outer
destination rewritten to neighbour 3's SNPA, outer source to the bridge
MAC, hop count decremented to 0. -/
def skbW_fwd_out : Skb :=
  { buf := [3, 3, 3, 3, 3, 3, 9, 9, 9, 9, 9, 9, 0x22, 0xF3,
            0, 0, 0, 3, 0, 5, 0, 0,
            7, 7, 7, 7, 7, 7, 6, 6, 6, 6, 6, 6, 0, 42, 0, 0],
    dataOff := 14, macOff := 0, encap := true, vlan_tci := none,
    vlan_proto := 0, protocol := 0 }

/-- A concrete RBridge state for the multi-destination receive path:
tree root 4 with adjacencies 3, 5 and 9; node 5 advertises tree 4. -/
def rbrR : Rbr :=
  { nick := 2, treeroot := 4,
    nodes := fun n =>
      if n = 4 then some { adjsnpa := [4, 4, 4, 4, 4, 4], adjnicks := [3, 5, 9], dtroots := [] }
      else if n = 3 then some { adjsnpa := [3, 3, 3, 3, 3, 3], adjnicks := [], dtroots := [] }
      else if n = 5 then some { adjsnpa := [5, 5, 5, 5, 5, 5], adjnicks := [], dtroots := [4] }
      else if n = 9 then some { adjsnpa := [9, 9, 9, 9, 9, 9], adjnicks := [], dtroots := [] }
      else none }

/-- A concrete multi-destination TRILL frame entering from adjacency 3
(outer source 03:…:03), egress (tree root) 4, ingress 5, hop count 2. -/
def skbMD : Skb :=
  { buf := [1, 1, 1, 1, 1, 1, 3, 3, 3, 3, 3, 3, 0x22, 0xF3,
            8, 2, 0, 4, 0, 5, 0, 0,
            7, 7, 7, 7, 7, 7, 6, 6, 6, 6, 6, 6, 0, 42, 0, 0],
    dataOff := 14, macOff := 0, encap := false, vlan_tci := none,
    vlan_proto := 0, protocol := 0 }

/-- The copy the Replicator emits for skbMD: toward adjacency 9, outer
destination 09:…:09, hop count decremented. -/
def skbMD_out : Skb :=
  { buf := [9, 9, 9, 9, 9, 9, 9, 9, 9, 9, 9, 9, 0x22, 0xF3,
            8, 1, 0, 4, 0, 5, 0, 0,
            7, 7, 7, 7, 7, 7, 6, 6, 6, 6, 6, 6, 0, 42, 0, 0],
    dataOff := 14, macOff := 0, encap := true, vlan_tci := none,
    vlan_proto := 0, protocol := 0 }

theorem rbrR_wf : RbrWF rbrR := by
  intro n ni h
  simp only [rbrR] at h
  split_ifs at h <;> (injection h with h2; rw [← h2]) <;> rfl

/-- A concrete end-station frame awaiting encapsulation. -/
def skbE : Skb :=
  { buf := [7, 7, 7, 7, 7, 7, 6, 6, 6, 6, 6, 6, 0, 42, 1, 2, 3, 4],
    dataOff := 14, macOff := 0, encap := false, vlan_tci := none,
    vlan_proto := 0, protocol := 0 }

/-- rbrM with tree_root cleared to NICK_NONE and no advertised
dt_roots: the flood path has no valid distribution-tree root. -/
def rbrM0 : Rbr := { rbrM with treeroot := 0 }

/-- The frame the flood at rbrM emits towards adjacency 3: outer dest
3:…:3, outer source the bridge MAC, EtherType TRILL, multi-destination
flags with hop count 9, egress 4 (the tree root), ingress 2. -/
def skbC8_out : Skb :=
  { buf := [3, 3, 3, 3, 3, 3, 9, 9, 9, 9, 9, 9, 0x22, 0xF3,
            8, 9, 0, 4, 0, 2, 0, 0,
            7, 7, 7, 7, 7, 7, 6, 6, 6, 6, 6, 6, 0, 42, 1, 2, 3, 4],
    dataOff := 14, macOff := 0, encap := true, vlan_tci := none,
    vlan_proto := 0, protocol := 0 }

/-- Every adjacency SNPA installed in rbrM is a 6-byte MAC. -/
theorem rbrM_wf : RbrWF rbrM := by
  intro n ni h
  simp only [rbrM] at h
  split_ifs at h <;> (injection h with h2; rw [← h2]) <;> rfl

/-! ## Claims -/

/-- C9: enabling TRILL on a bridge where it is already enabled is a
no-op that preserves the attached RBridge state, and disabling when
already disabled likewise changes nothing (br_trill_set_enabled is
idempotent in both directions). -/
theorem claim_C9 (allocOk : Bool) (br : NetBridge) :
    (br.trill_enabled = true → br_trill_set_enabled allocOk true br = br) ∧
    (br.trill_enabled = false → br_trill_set_enabled allocOk false br = br) := by
  constructor <;> intro h <;> simp [br_trill_set_enabled, h]

/-- Witness for C9 at a concrete enabled bridge and a concrete disabled
bridge. -/
theorem claim_C9_witness :
    br_trill_set_enabled true true
        { trill_enabled := true, stp_enabled := false, rbr := some rbrW } =
      { trill_enabled := true, stp_enabled := false, rbr := some rbrW } ∧
    br_trill_set_enabled true false
        { trill_enabled := false, stp_enabled := false, rbr := none } =
      { trill_enabled := false, stp_enabled := false, rbr := none } :=
  ⟨(claim_C9 true { trill_enabled := true, stp_enabled := false, rbr := some rbrW }).1 rfl,
   (claim_C9 true { trill_enabled := false, stp_enabled := false, rbr := none }).2 rfl⟩

/-- C1: a TRILL frame whose outer destination MAC differs from the
receiving port's own MAC is dropped by the receive path (rx counter
bump and free), with no forwarding, replication or decapsulation. -/
theorem claim_C1 (env : Env) (rbr : Rbr) (skb : Skb) (vid : Nat)
    (h : readBytes skb.buf skb.macOff 6 ≠ env.portDevAddr) :
    rbr_recv env rbr skb vid = [Action.rxDrop, Action.free true] := by
  unfold rbr_recv
  rw [if_pos h]

/-- Witness for C1: a concrete frame whose outer destination is not the
port MAC. -/
theorem claim_C1_witness :
    rbr_recv envW rbrW { skbW with buf := 2 :: skbW.buf.tail } 10 =
      [Action.rxDrop, Action.free true] :=
  claim_C1 envW rbrW { skbW with buf := 2 :: skbW.buf.tail } 10 (by decide)

/-- C2: any received TRILL frame whose ingress nickname equals the local
nickname is dropped, unicast or multi-destination: the trace is exactly
the rx-drop, with no forwarding, replication or decapsulation. -/
theorem claim_C2 (env : Env) (rbr : Rbr) (skb : Skb) (vid : Nat)
    (h : readBE16 skb.buf (skb.dataOff + 4) = rbr.nick) :
    rbr_recv env rbr skb vid = [Action.rxDrop, Action.free true] := by
  unfold rbr_recv
  split_ifs with h1 h2
  · rfl
  · rfl
  · unfold rbr_recv_body
    by_cases h3 : ¬(VALID_NICK (readBE16 skb.buf (skb.dataOff + 4)) ∧
        VALID_NICK (readBE16 skb.buf (skb.dataOff + 2)))
    · rw [if_pos h3]
    · rw [if_neg h3]
      by_cases h4 : trill_get_version (readBE16 skb.buf skb.dataOff) ≠ TRILL_PROTOCOL_VERS
      · rw [if_pos h4]
      · rw [if_neg h4, if_pos h]

/-- Witness for C2: a concrete frame carrying ingress nickname 2 on a
bridge whose local nickname is 2. -/
theorem claim_C2_witness :
    rbr_recv envW rbrW skbW_selfloop 10 = [Action.rxDrop, Action.free true] :=
  claim_C2 envW rbrW skbW_selfloop 10 (by decide)

theorem deliveredSkb_cons (s : Skb) (a : Action) (tr : List Action)
    (h : deliveredSkb s tr) : deliveredSkb s (a :: tr) := by
  rcases h with h | ⟨pa, h⟩
  · exact Or.inl (List.mem_cons_of_mem a h)
  · exact Or.inr ⟨pa, List.mem_cons_of_mem a h⟩

/-- rbr_decap_finish always hands the frame to a local-delivery
primitive. -/
theorem rbr_decap_finish_delivers (env : Env) (skb : Skb) (vid : Nat) :
    deliveredSkb skb (rbr_decap_finish env skb vid) ∧
      Action.rxDrop ∉ rbr_decap_finish env skb vid := by
  unfold rbr_decap_finish
  rcases hfdb : env.fdbGet (readBytes skb.buf skb.macOff 6) vid with _ | e <;>
    simp only [hfdb]
  · exact ⟨Or.inl (by simp), by simp⟩
  · exact ⟨Or.inr ⟨e.devAddr, by simp⟩, by simp⟩

/-- A successful decapsulation delivers the inner frame locally and
never bumps the rx-dropped counter. -/
theorem rbr_decaps_delivers (env : Env) (skb : Skb) (trhsize vid : Nat) (orig : Bool)
    (h : TRILL_HDR_SIZE ≤ trhsize) :
    ∃ s, deliveredSkb s (rbr_decaps env skb trhsize vid orig) ∧
      Action.rxDrop ∉ rbr_decaps env skb trhsize vid orig := by
  unfold rbr_decaps
  rw [if_pos h]
  obtain ⟨hdel, hnot⟩ := rbr_decap_finish_delivers env
    { skb_pull ({ skb_reset_mac_header (skb_pull skb TRILL_HDR_SIZE) with
        protocol := readBE16 (skb_reset_mac_header (skb_pull skb TRILL_HDR_SIZE)).buf
          ((skb_reset_mac_header (skb_pull skb TRILL_HDR_SIZE)).macOff + 12) }) ETH_HLEN
      with encap := false } vid
  refine ⟨_, deliveredSkb_cons _ _ _ hdel, ?_⟩
  intro hmem
  rcases List.mem_cons.mp hmem with hmem | hmem
  · exact absurd hmem (by simp)
  · exact hnot hmem

theorem trill_dec_hopcount_le (f : Nat) : trill_dec_hopcount f ≤ f := by
  unfold trill_dec_hopcount
  have := Nat.div_add_mod f 64
  omega

theorem trill_get_hopcount_dec (f : Nat) :
    trill_get_hopcount (trill_dec_hopcount f) = trill_get_hopcount f - 1 := by
  unfold trill_get_hopcount trill_dec_hopcount
  have h1 : f % 64 < 64 := Nat.mod_lt _ (by omega)
  calc (f / 64 * 64 + (f % 64 - 1)) % 64
      = (f % 64 - 1 + f / 64 * 64) % 64 := by rw [Nat.add_comm]
    _ = (f % 64 - 1) % 64 := Nat.add_mul_mod_self_right _ _ _
    _ = f % 64 - 1 := Nat.mod_eq_of_lt (by omega)

/-- What rbr_fwd emits when the adjacency is installed: exactly one
frame, toward that adjacency, whose outer destination is the
adjacency's SNPA; offsets are unchanged, the hop-count field is
decremented in place, and the header bytes from the egress-nickname
field on are untouched. -/
theorem rbr_fwd_emits (env : Env) (rbr : Rbr) (skb : Skb) (a vid : Nat) (orig : Bool)
    (adj : RbrNi) (hfind : rbr_find_node rbr a = some adj)
    (hsnpa : adj.adjsnpa.length = 6) :
    ∃ v s, rbr_fwd env rbr skb a vid orig = [Action.emitted orig a v s] ∧
      s.dataOff = skb.dataOff ∧ s.macOff = skb.macOff ∧
      readBytes s.buf s.macOff 6 = adj.adjsnpa ∧
      (env.brDevAddr.length = 6 →
        (∀ m v' e', env.fdbGet m v' = some e' → e'.devAddr.length = 6) →
        skb.macOff + ETH_HLEN ≤ skb.dataOff →
        readBE16 skb.buf skb.dataOff < 65536 →
        readBE16 s.buf s.dataOff = trill_dec_hopcount (readBE16 skb.buf skb.dataOff) ∧
        ∀ i, skb.dataOff + 2 ≤ i → readBE16 s.buf i = readBE16 skb.buf i) := by
  unfold rbr_fwd
  simp only [hfind]
  unfold rbr_fwd_finish
  set f := readBE16 skb.buf skb.dataOff with hf
  set skb1 := writeB skb skb.dataOff (be16 (trill_dec_hopcount f)) with hskb1
  set skb2 := writeB skb1 (skb1.macOff + 6) env.brDevAddr with hskb2
  set skb3 := writeB skb2 skb2.macOff adj.adjsnpa with hskb3
  have hm1 : skb1.macOff = skb.macOff := rfl
  have hd1 : skb1.dataOff = skb.dataOff := rfl
  have hm2 : skb2.macOff = skb.macOff := rfl
  have hm3 : skb3.macOff = skb.macOff := rfl
  have hd3 : skb3.dataOff = skb.dataOff := rfl
  have hE : ETH_HLEN = 14 := rfl
  have hdest3 : readBytes skb3.buf skb3.macOff 6 = adj.adjsnpa := by
    rw [hskb3]
    show readBytes (writeBytes skb2.buf skb2.macOff adj.adjsnpa) skb2.macOff 6 = adj.adjsnpa
    rw [show (6 : Nat) = adj.adjsnpa.length from hsnpa.symm]
    exact readBytes_writeBytes_at skb2.buf skb2.macOff adj.adjsnpa
  have hlen3 : skb.macOff + 6 ≤ skb3.buf.length := by
    have h := writeBytes_length_ge skb2.buf skb2.macOff adj.adjsnpa
    rw [hsnpa, hm2] at h
    rw [hskb3]
    exact h
  have hread3 : ∀ i, skb.macOff + 12 ≤ i → env.brDevAddr.length = 6 →
      readBE16 skb3.buf i = readBE16 skb1.buf i := by
    intro i hi hbr
    rw [hskb3]
    show readBE16 (writeBytes skb2.buf skb2.macOff adj.adjsnpa) i = readBE16 skb1.buf i
    rw [readBE16_writeBytes_ge _ _ _ _ (by rw [hsnpa, hm2]; omega), hskb2]
    show readBE16 (writeBytes skb1.buf (skb1.macOff + 6) env.brDevAddr) i = readBE16 skb1.buf i
    rw [readBE16_writeBytes_ge _ _ _ _ (by rw [hbr, hm1]; omega)]
  rcases hfdb : env.fdbGet (readBytes skb3.buf skb3.macOff 6) vid with _ | e <;>
    simp only [hfdb]
  · refine ⟨false, skb3, rfl, hd3, hm3, hdest3, ?_⟩
    intro hbr hfdbl hmac hlt
    constructor
    · rw [hd3, hread3 skb.dataOff (by omega) hbr, hskb1]
      show readBE16 (writeBytes skb.buf skb.dataOff (be16 (trill_dec_hopcount f))) skb.dataOff
        = trill_dec_hopcount f
      exact readBE16_be16 _ _ _ (by have := trill_dec_hopcount_le f; omega)
    · intro i hi
      rw [hread3 i (by omega) hbr, hskb1]
      show readBE16 (writeBytes skb.buf skb.dataOff (be16 (trill_dec_hopcount f))) i
        = readBE16 skb.buf i
      exact readBE16_writeBytes_ge _ _ _ _ (by simp [be16]; omega)
  · refine ⟨true, writeB skb3 (skb3.macOff + 6) e.devAddr, rfl, hd3, hm3, ?_, ?_⟩
    · show readBytes (writeBytes skb3.buf (skb3.macOff + 6) e.devAddr) skb3.macOff 6
        = adj.adjsnpa
      rw [readBytes_writeBytes_below _ _ _ _ _ (by rw [hm3]; exact hlen3)
        (by omega), hdest3]
    · intro hbr hfdbl hmac hlt
      have hel : e.devAddr.length = 6 := hfdbl _ _ _ hfdb
      have hread4 : ∀ i, skb.macOff + 12 ≤ i →
          readBE16 (writeBytes skb3.buf (skb3.macOff + 6) e.devAddr) i
            = readBE16 skb3.buf i := by
        intro i hi
        exact readBE16_writeBytes_ge _ _ _ _ (by rw [hel, hm3]; omega)
      constructor
      · show readBE16 (writeB skb3 (skb3.macOff + 6) e.devAddr).buf
          (writeB skb3 (skb3.macOff + 6) e.devAddr).dataOff = trill_dec_hopcount f
        rw [show (writeB skb3 (skb3.macOff + 6) e.devAddr).buf
            = writeBytes skb3.buf (skb3.macOff + 6) e.devAddr from rfl,
          show (writeB skb3 (skb3.macOff + 6) e.devAddr).dataOff = skb.dataOff from hd3]
        rw [hread4 skb.dataOff (by omega), hread3 skb.dataOff (by omega) hbr, hskb1]
        show readBE16 (writeBytes skb.buf skb.dataOff (be16 (trill_dec_hopcount f))) skb.dataOff
          = trill_dec_hopcount f
        exact readBE16_be16 _ _ _ (by have := trill_dec_hopcount_le f; omega)
      · intro i hi
        show readBE16 (writeB skb3 (skb3.macOff + 6) e.devAddr).buf i = readBE16 skb.buf i
        rw [show (writeB skb3 (skb3.macOff + 6) e.devAddr).buf
            = writeBytes skb3.buf (skb3.macOff + 6) e.devAddr from rfl]
        rw [hread4 i (by omega), hread3 i (by omega) hbr, hskb1]
        show readBE16 (writeBytes skb.buf skb.dataOff (be16 (trill_dec_hopcount f))) i
          = readBE16 skb.buf i
        exact readBE16_writeBytes_ge _ _ _ _ (by simp [be16]; omega)

/-- A hop count of zero makes the multi-destination tail drop. -/
theorem rbr_recv_mdest_tail_hop0 (env : Env) (rbr : Rbr) (skb : Skb)
    (flags egr ing : Nat) (srcaddr : List Nat) (trhsize vid : Nat)
    (h : trill_get_hopcount flags = 0) :
    rbr_recv_mdest_tail env rbr skb flags egr ing srcaddr trhsize vid =
      [Action.rxDrop, Action.free true] := by
  unfold rbr_recv_mdest_tail
  rw [if_pos h]

/-- Counterexample to C3 as stated: a unicast frame arriving with hop
count 0 whose egress nickname equals the local nickname is not dropped;
it is decapsulated and delivered to local end stations. -/
theorem claim_C3_cx :
    trill_get_hopcount (readBE16 skbW_hop0_local.buf skbW_hop0_local.dataOff) = 0 ∧
    trill_get_multidest (readBE16 skbW_hop0_local.buf skbW_hop0_local.dataOff) = 0 ∧
    readBE16 skbW_hop0_local.buf (skbW_hop0_local.dataOff + 2) = rbrW.nick ∧
    rbr_recv envW rbrW skbW_hop0_local 10 =
      [Action.fdbUpdateNick [6, 6, 6, 6, 6, 6] 10 5,
       Action.endstationDeliver skbW_hop0_local_out] ∧
    Action.rxDrop ∉ rbr_recv envW rbrW skbW_hop0_local 10 := by
  refine ⟨by decide, by decide, by decide, by decide, by decide⟩

/-- C3 (amended): every TRILL frame arriving with hop count 0 is
dropped, except a unicast frame whose egress nickname equals the local
nickname, which (when it passes the receive validity checks) is
decapsulated and delivered locally rather than dropped. -/
theorem claim_C3 (env : Env) (rbr : Rbr) (skb : Skb) (vid : Nat)
    (hhop : trill_get_hopcount (readBE16 skb.buf skb.dataOff) = 0) :
    (trill_get_multidest (readBE16 skb.buf skb.dataOff) ≠ 0 ∨
        readBE16 skb.buf (skb.dataOff + 2) ≠ rbr.nick →
      rbr_recv env rbr skb vid = [Action.rxDrop, Action.free true]) ∧
    (recvPrechecksOk env rbr skb ∧
        trill_get_multidest (readBE16 skb.buf skb.dataOff) = 0 ∧
        readBE16 skb.buf (skb.dataOff + 2) = rbr.nick →
      ∃ s, deliveredSkb s (rbr_recv env rbr skb vid) ∧
        Action.rxDrop ∉ rbr_recv env rbr skb vid) := by
  constructor
  · intro hcase
    unfold rbr_recv
    split_ifs with h1 h2
    · rfl
    · rfl
    · unfold rbr_recv_body
      by_cases h3 : ¬(VALID_NICK (readBE16 skb.buf (skb.dataOff + 4)) ∧
          VALID_NICK (readBE16 skb.buf (skb.dataOff + 2)))
      · rw [if_pos h3]
      · rw [if_neg h3]
        by_cases h4 : trill_get_version (readBE16 skb.buf skb.dataOff) ≠ TRILL_PROTOCOL_VERS
        · rw [if_pos h4]
        · rw [if_neg h4]
          by_cases h5 : readBE16 skb.buf (skb.dataOff + 4) = rbr.nick
          · rw [if_pos h5]
          · rw [if_neg h5]
            by_cases h6 : trill_get_optslen (readBE16 skb.buf skb.dataOff) ≠ 0
            · rw [if_pos h6]
            · rw [if_neg h6]
              by_cases h7 : trill_get_multidest (readBE16 skb.buf skb.dataOff) = 0
              · rw [if_pos h7]
                have hegr : readBE16 skb.buf (skb.dataOff + 2) ≠ rbr.nick := by
                  rcases hcase with hc | hc
                  · exact absurd h7 hc
                  · exact hc
                by_cases h8 : readBE16 skb.buf (skb.dataOff + 2) =
                    readBE16 skb.buf (skb.dataOff + 4)
                · rw [if_pos h8]
                · rw [if_neg h8, if_neg hegr]
                  by_cases h9 : trill_get_hopcount (readBE16 skb.buf skb.dataOff) ≠ 0
                  · exact absurd hhop h9
                  · rw [if_neg h9]
              · rw [if_neg h7]
                rcases hdest : rbr_find_node rbr (readBE16 skb.buf (skb.dataOff + 2))
                    with _ | dest <;> simp only [hdest]
                by_cases h10 : ¬rbr_adj_src_check rbr dest
                    (readBytes skb.buf (skb.macOff + 6) 6)
                · rw [if_pos h10]
                · rw [if_neg h10]
                  rcases hsrc : rbr_find_node rbr (readBE16 skb.buf (skb.dataOff + 4))
                      with _ | source_node <;> simp only [hsrc]
                  by_cases h11 : readBE16 skb.buf (skb.dataOff + 2) ∈ source_node.dtroots
                  · rw [if_pos h11]
                    exact rbr_recv_mdest_tail_hop0 _ _ _ _ _ _ _ _ _ hhop
                  · rw [if_neg h11]
                    by_cases h12 : source_node.dtroots ≠ [] ∨
                        readBE16 skb.buf (skb.dataOff + 2) ≠ rbr.treeroot
                    · rw [if_pos h12]
                    · rw [if_neg h12]
                      exact rbr_recv_mdest_tail_hop0 _ _ _ _ _ _ _ _ _ hhop
  · rintro ⟨⟨hp1, hp2, hp3, hp4, hp5, hp6, hp7⟩, hmulti, hegr⟩
    unfold rbr_recv
    rw [if_neg (not_not_intro hp1), if_neg (by omega)]
    unfold rbr_recv_body
    rw [if_neg (not_not_intro ⟨hp3, hp4⟩), if_neg (not_not_intro hp5), if_neg hp6,
        if_neg (not_not_intro hp7), if_pos hmulti]
    have hne : readBE16 skb.buf (skb.dataOff + 2) ≠ readBE16 skb.buf (skb.dataOff + 4) := by
      rw [hegr]
      exact fun hh => hp6 hh.symm
    rw [if_neg hne, if_pos hegr]
    exact rbr_decaps_delivers env _ _ vid true (Nat.le_add_right _ _)

/-- Witness for C3 at concrete frames: a hop-0 unicast transit frame is
dropped; a hop-0 unicast frame addressed to the local nickname is
delivered. -/
theorem claim_C3_witness :
    rbr_recv envW rbrW skbW_hop0_transit 10 = [Action.rxDrop, Action.free true] ∧
    ∃ s, deliveredSkb s (rbr_recv envW rbrW skbW_hop0_local 10) ∧
      Action.rxDrop ∉ rbr_recv envW rbrW skbW_hop0_local 10 :=
  ⟨(claim_C3 envW rbrW skbW_hop0_transit 10 (by decide)).1 (Or.inr (by decide)),
   (claim_C3 envW rbrW skbW_hop0_local 10 (by decide)).2 ⟨by decide, by decide, by decide⟩⟩

/-- Counterexample to C4 as stated: a unicast transit frame arriving
with hop count 1 (egress 3 ≠ local nickname 2) is not dropped; it is
forwarded to the adjacency with the hop count decremented to 0. -/
theorem claim_C4_cx :
    trill_get_hopcount (readBE16 skbW.buf skbW.dataOff) = 1 ∧
    trill_get_multidest (readBE16 skbW.buf skbW.dataOff) = 0 ∧
    readBE16 skbW.buf (skbW.dataOff + 2) ≠ rbrW.nick ∧
    rbr_recv envW rbrW skbW 10 =
      [Action.fdbUpdate [8, 8, 8, 8, 8, 8] 10,
       Action.emitted true 3 false skbW_fwd_out] ∧
    Action.rxDrop ∉ rbr_recv envW rbrW skbW 10 := by
  refine ⟨by decide, by decide, by decide, by decide, by decide⟩

/-- C4 (amended): a unicast frame arriving with hop count 1 whose
egress nickname differs from the local nickname is not dropped but
forwarded to its adjacency with the hop count decremented to 0, while a
unicast frame with hop count 1 whose egress equals the local nickname
is decapsulated and delivered locally. -/
theorem claim_C4 (env : Env) (rbr : Rbr) (skb : Skb) (vid : Nat) :
    (∀ adj, recvPrechecksOk env rbr skb →
      trill_get_multidest (readBE16 skb.buf skb.dataOff) = 0 →
      trill_get_hopcount (readBE16 skb.buf skb.dataOff) = 1 →
      readBE16 skb.buf (skb.dataOff + 2) ≠ readBE16 skb.buf (skb.dataOff + 4) →
      readBE16 skb.buf (skb.dataOff + 2) ≠ rbr.nick →
      rbr_find_node rbr (readBE16 skb.buf (skb.dataOff + 2)) = some adj →
      adj.adjsnpa.length = 6 → env.brDevAddr.length = 6 →
      (∀ m v' e', env.fdbGet m v' = some e' → e'.devAddr.length = 6) →
      skb.dataOff = skb.macOff + ETH_HLEN →
      readBE16 skb.buf skb.dataOff < 65536 →
      ∃ v s, rbr_recv env rbr skb vid =
          [Action.fdbUpdate (readBytes skb.buf (skb.macOff + 6) 6) vid,
           Action.emitted true (readBE16 skb.buf (skb.dataOff + 2)) v s] ∧
        trill_get_hopcount (readBE16 s.buf s.dataOff) = 0) ∧
    (recvPrechecksOk env rbr skb →
      trill_get_multidest (readBE16 skb.buf skb.dataOff) = 0 →
      trill_get_hopcount (readBE16 skb.buf skb.dataOff) = 1 →
      readBE16 skb.buf (skb.dataOff + 2) = rbr.nick →
      ∃ s, deliveredSkb s (rbr_recv env rbr skb vid) ∧
        Action.rxDrop ∉ rbr_recv env rbr skb vid) := by
  constructor
  · rintro adj ⟨hp1, hp2, hp3, hp4, hp5, hp6, hp7⟩ hmulti hhop hne hnl hfind hsnpa hbr
      hfdbl hoff hlt
    unfold rbr_recv
    rw [if_neg (not_not_intro hp1), if_neg (by omega)]
    unfold rbr_recv_body
    rw [if_neg (not_not_intro ⟨hp3, hp4⟩), if_neg (not_not_intro hp5), if_neg hp6,
        if_neg (not_not_intro hp7), if_pos hmulti, if_neg hne, if_neg hnl,
        if_pos (show trill_get_hopcount (readBE16 skb.buf skb.dataOff) ≠ 0 by omega)]
    obtain ⟨v, s, heq, hd, hm, hdst, hcond⟩ :=
      rbr_fwd_emits env rbr { skb with encap := true }
        (readBE16 skb.buf (skb.dataOff + 2)) vid true adj hfind hsnpa
    obtain ⟨hhop', hpres⟩ := hcond hbr hfdbl
      (show ({ skb with encap := true } : Skb).macOff + ETH_HLEN ≤
        ({ skb with encap := true } : Skb).dataOff by
          show skb.macOff + ETH_HLEN ≤ skb.dataOff
          omega)
      (show readBE16 ({ skb with encap := true } : Skb).buf
          ({ skb with encap := true } : Skb).dataOff < 65536 from hlt)
    refine ⟨v, s, by rw [heq], ?_⟩
    have : readBE16 s.buf s.dataOff =
        trill_dec_hopcount (readBE16 skb.buf skb.dataOff) := hhop'
    rw [this, trill_get_hopcount_dec, hhop]
  · rintro ⟨hp1, hp2, hp3, hp4, hp5, hp6, hp7⟩ hmulti hhop hegr
    unfold rbr_recv
    rw [if_neg (not_not_intro hp1), if_neg (by omega)]
    unfold rbr_recv_body
    rw [if_neg (not_not_intro ⟨hp3, hp4⟩), if_neg (not_not_intro hp5), if_neg hp6,
        if_neg (not_not_intro hp7), if_pos hmulti]
    have hne : readBE16 skb.buf (skb.dataOff + 2) ≠ readBE16 skb.buf (skb.dataOff + 4) := by
      rw [hegr]
      exact fun hh => hp6 hh.symm
    rw [if_neg hne, if_pos hegr]
    exact rbr_decaps_delivers env _ _ vid true (Nat.le_add_right _ _)

theorem emissionsOf_append (x y : List Action) :
    emissionsOf (x ++ y) = emissionsOf x ++ emissionsOf y := by
  induction x with
  | nil => rfl
  | cons a t ih =>
    cases a <;> simp [emissionsOf, ih]

/-- rbr_fwd_finish emits exactly one frame, toward the given nickname,
and never frees a buffer. -/
theorem emissionsOf_rbr_fwd_finish (env : Env) (s : Skb) (nick vid : Nat) (orig : Bool) :
    emissionsOf (rbr_fwd_finish env s nick vid orig) = [(orig, nick)] ∧
      ∀ b, Action.free b ∉ rbr_fwd_finish env s nick vid orig := by
  unfold rbr_fwd_finish
  rcases hfdb : env.fdbGet (readBytes s.buf s.macOff 6) vid with _ | e <;>
    simp [emissionsOf, hfdb]

/-- rbr_fwd on an installed adjacency emits exactly one frame toward it
and frees nothing. -/
theorem emissionsOf_rbr_fwd_found (env : Env) (rbr : Rbr) (skb : Skb) (a vid : Nat)
    (orig : Bool) (adj : RbrNi) (hfind : rbr_find_node rbr a = some adj) :
    emissionsOf (rbr_fwd env rbr skb a vid orig) = [(orig, a)] ∧
      ∀ b, Action.free b ∉ rbr_fwd env rbr skb a vid orig := by
  unfold rbr_fwd
  simp only [hfind]
  exact emissionsOf_rbr_fwd_finish env _ a vid orig

/-- The replication loop, entered with the first adjacency already
saved: every surviving adjacency in the rest of the list gets a copy,
in list order; the saved nickname and loop state are unchanged. -/
theorem mdLoop_saved_spec (env : Env) (rbr : Rbr) (skb : Skb) (ing : Nat)
    (saddr : Option (List Nat)) (vid : Nat) (hcopy : env.copyOk = true) :
    ∀ l sn, ∃ acts,
      mdLoop env rbr skb ing saddr vid true l true sn = (acts, true, sn, true) ∧
      emissionsOf acts = (l.filter (survives rbr ing saddr)).map (fun a => (false, a)) ∧
      ∀ b, Action.free b ∉ acts := by
  intro l
  induction l with
  | nil => exact fun sn => ⟨[], rfl, rfl, by simp⟩
  | cons a t ih =>
    intro sn
    obtain ⟨acts, heq, hem, hfr⟩ := ih sn
    by_cases h1 : ing = a
    · have hs : survives rbr ing saddr a = false := by
        unfold survives
        rw [if_pos h1]
      refine ⟨acts, ?_, ?_, hfr⟩
      · simp only [mdLoop, if_pos h1]
        exact heq
      · simp [List.filter_cons, hs, hem]
    · rcases hfind : rbr_find_node rbr a with _ | adj
      · have hs : survives rbr ing saddr a = false := by
          unfold survives
          rw [if_neg h1, hfind]
        refine ⟨acts, ?_, ?_, hfr⟩
        · simp only [mdLoop, if_neg h1, hfind]
          exact heq
        · simp [List.filter_cons, hs, hem]
      · by_cases h3 : saddr = some adj.adjsnpa
        · have hs : survives rbr ing saddr a = false := by
            unfold survives
            rw [if_neg h1, hfind]
            simp [h3]
          refine ⟨acts, ?_, ?_, hfr⟩
          · simp only [mdLoop, if_neg h1, hfind, if_pos h3]
            exact heq
          · simp [List.filter_cons, hs, hem]
        · have hs : survives rbr ing saddr a = true := by
            unfold survives
            rw [if_neg h1, hfind]
            simp [h3]
          obtain ⟨hemF, hfrF⟩ := emissionsOf_rbr_fwd_found env rbr skb a vid false adj hfind
          refine ⟨rbr_fwd env rbr skb a vid false ++ acts, ?_, ?_, ?_⟩
          · simp only [mdLoop, if_neg h1, hfind, if_neg h3]
            simp [hcopy, heq]
          · rw [emissionsOf_append, hemF, hem, List.filter_cons, if_pos hs]
            rfl
          · intro b hmem
            rcases List.mem_append.mp hmem with hmem | hmem
            · exact hfrF b hmem
            · exact hfr b hmem

/-- The replication loop, entered with nothing saved and
free_on_exhaustion set: the first surviving adjacency is remembered
without receiving a copy, every subsequent survivor gets a copy, and if
nothing survives the loop is a no-op. -/
theorem mdLoop_unsaved_spec (env : Env) (rbr : Rbr) (skb : Skb) (ing : Nat)
    (saddr : Option (List Nat)) (vid : Nat) (hcopy : env.copyOk = true) :
    ∀ l sn,
      (l.filter (survives rbr ing saddr) = [] →
        mdLoop env rbr skb ing saddr vid true l false sn = ([], false, sn, true)) ∧
      (∀ s rest, l.filter (survives rbr ing saddr) = s :: rest →
        ∃ acts, mdLoop env rbr skb ing saddr vid true l false sn = (acts, true, s, true) ∧
          emissionsOf acts = rest.map (fun a => (false, a)) ∧
          ∀ b, Action.free b ∉ acts) := by
  intro l
  induction l with
  | nil =>
    intro sn
    exact ⟨fun _ => rfl, fun s rest h => absurd h (by simp)⟩
  | cons a t ih =>
    intro sn
    by_cases h1 : ing = a
    · have hs : survives rbr ing saddr a = false := by
        unfold survives
        rw [if_pos h1]
      have hfil : (a :: t).filter (survives rbr ing saddr)
          = t.filter (survives rbr ing saddr) := by
        rw [List.filter_cons, if_neg (by simp [hs])]
      constructor
      · intro hnil
        rw [hfil] at hnil
        simp only [mdLoop, if_pos h1]
        exact (ih sn).1 hnil
      · intro s rest hcons
        rw [hfil] at hcons
        obtain ⟨acts, heq, hem, hfr⟩ := (ih sn).2 s rest hcons
        refine ⟨acts, ?_, hem, hfr⟩
        simp only [mdLoop, if_pos h1]
        exact heq
    · rcases hfind : rbr_find_node rbr a with _ | adj
      · have hs : survives rbr ing saddr a = false := by
          unfold survives
          rw [if_neg h1, hfind]
        have hfil : (a :: t).filter (survives rbr ing saddr)
            = t.filter (survives rbr ing saddr) := by
          rw [List.filter_cons, if_neg (by simp [hs])]
        constructor
        · intro hnil
          rw [hfil] at hnil
          simp only [mdLoop, if_neg h1, hfind]
          exact (ih sn).1 hnil
        · intro s rest hcons
          rw [hfil] at hcons
          obtain ⟨acts, heq, hem, hfr⟩ := (ih sn).2 s rest hcons
          refine ⟨acts, ?_, hem, hfr⟩
          simp only [mdLoop, if_neg h1, hfind]
          exact heq
      · by_cases h3 : saddr = some adj.adjsnpa
        · have hs : survives rbr ing saddr a = false := by
            unfold survives
            rw [if_neg h1, hfind]
            simp [h3]
          have hfil : (a :: t).filter (survives rbr ing saddr)
              = t.filter (survives rbr ing saddr) := by
            rw [List.filter_cons, if_neg (by simp [hs])]
          constructor
          · intro hnil
            rw [hfil] at hnil
            simp only [mdLoop, if_neg h1, hfind, if_pos h3]
            exact (ih sn).1 hnil
          · intro s rest hcons
            rw [hfil] at hcons
            obtain ⟨acts, heq, hem, hfr⟩ := (ih sn).2 s rest hcons
            refine ⟨acts, ?_, hem, hfr⟩
            simp only [mdLoop, if_neg h1, hfind, if_pos h3]
            exact heq
        · have hs : survives rbr ing saddr a = true := by
            unfold survives
            rw [if_neg h1, hfind]
            simp [h3]
          have hfil : (a :: t).filter (survives rbr ing saddr)
              = a :: t.filter (survives rbr ing saddr) := by
            rw [List.filter_cons, if_pos (by simp [hs])]
          constructor
          · intro hnil
            rw [hfil] at hnil
            exact absurd hnil (by simp)
          · intro s rest hcons
            rw [hfil] at hcons
            injection hcons with hh1 hh2
            obtain ⟨acts, heq, hem, hfr⟩ := mdLoop_saved_spec env rbr skb ing saddr vid hcopy t a
            refine ⟨acts, ?_, ?_, hfr⟩
            · simp only [mdLoop, if_neg h1, hfind, if_neg h3]
              rw [← hh1]
              simp [heq]
            · rw [hem, hh2]

/-- Counterexample to C5 as stated: in a Replicator invocation with
free_on_exhaustion = false (the receive path), the first surviving
adjacency (nickname 3) is sent an skb_copy rather than being
remembered, and the original buffer is freed rather than forwarded. -/
theorem claim_C5_cx :
    survives rbrM 5 none 3 = true ∧
    rbr_find_node rbrM 4 =
      some { adjsnpa := [4, 4, 4, 4, 4, 4], adjnicks := [3, 5], dtroots := [] } ∧
    emissionsOf (rbr_multidest_fwd envW rbrM skbW 4 5 none 10 false true).1 =
      [(false, 3)] ∧
    Action.free true ∈ (rbr_multidest_fwd envW rbrM skbW 4 5 none 10 false true).1 := by
  refine ⟨by decide, by decide, by decide, by decide⟩

/-- C5 (amended): in a Replicator invocation with free_on_exhaustion =
true and succeeding buffer copies, the first surviving adjacency is
remembered instead of being sent a copy, copies are made only for
subsequent surviving adjacencies, and after the loop the original
buffer is forwarded to the remembered adjacency; if no adjacency
survives, the original buffer is freed.  (With free_on_exhaustion =
false every survivor gets a copy and the original is always freed.) -/
theorem claim_C5 (env : Env) (rbr : Rbr) (skb : Skb) (egress ing : Nat)
    (saddr : Option (List Nat)) (vid : Nat) (dest : RbrNi)
    (hcopy : env.copyOk = true)
    (hdest : rbr_find_node rbr egress = some dest) :
    (dest.adjnicks.filter (survives rbr ing saddr) = [] →
      rbr_multidest_fwd env rbr skb egress ing saddr vid true true =
        ([Action.free true], true)) ∧
    (∀ s rest, dest.adjnicks.filter (survives rbr ing saddr) = s :: rest →
      ∃ acts, rbr_multidest_fwd env rbr skb egress ing saddr vid true true = (acts, true) ∧
        emissionsOf acts = rest.map (fun a => (false, a)) ++ [(true, s)] ∧
        Action.free true ∉ acts) := by
  constructor
  · intro hnil
    have h := (mdLoop_unsaved_spec env rbr skb ing saddr vid hcopy dest.adjnicks 0).1 hnil
    unfold rbr_multidest_fwd
    simp only [hdest, h]
    rfl
  · intro s rest hcons
    obtain ⟨acts, heq, hem, hfr⟩ :=
      (mdLoop_unsaved_spec env rbr skb ing saddr vid hcopy dest.adjnicks 0).2 s rest hcons
    have hsv : survivesP rbr ing saddr s := by
      have hmem : s ∈ dest.adjnicks.filter (survives rbr ing saddr) := by
        rw [hcons]
        simp
      exact (survives_iff rbr ing saddr s).mp (List.of_mem_filter hmem)
    obtain ⟨adj, hfindS, hneS⟩ := hsv.2
    obtain ⟨hemF, hfrF⟩ := emissionsOf_rbr_fwd_found env rbr skb s vid true adj hfindS
    refine ⟨acts ++ rbr_fwd env rbr skb s vid true, ?_, ?_, ?_⟩
    · unfold rbr_multidest_fwd
      simp only [hdest, heq]
      rfl
    · rw [emissionsOf_append, hem, hemF]
    · intro hmem
      rcases List.mem_append.mp hmem with h | h
      · exact hfr true h
      · exact hfrF true h

/-- Witness for C5: a concrete flood invocation with survivors [3, 5];
nickname 5 gets the copy and the original goes to the remembered first
survivor 3. -/
theorem claim_C5_witness :
    ∃ acts, rbr_multidest_fwd envW rbrM skbW 4 999 none 10 true true = (acts, true) ∧
      emissionsOf acts = [(false, 5), (true, 3)] ∧ Action.free true ∉ acts := by
  have h := (claim_C5 envW rbrM skbW 4 999 none 10
      { adjsnpa := [4, 4, 4, 4, 4, 4], adjnicks := [3, 5], dtroots := [] }
      (by decide) (by decide)).2 3 [5] (by decide)
  simpa using h

/-- rbr_decap_finish emits no frames toward the fabric. -/
theorem no_emitted_decap_finish (env : Env) (skb : Skb) (vid : Nat)
    (o : Bool) (n : Nat) (v : Bool) (s : Skb) :
    Action.emitted o n v s ∉ rbr_decap_finish env skb vid := by
  unfold rbr_decap_finish
  rcases hfdb : env.fdbGet (readBytes skb.buf skb.macOff 6) vid with _ | e <;>
    simp [hfdb]

/-- rbr_decaps emits no frames toward the fabric. -/
theorem no_emitted_decaps (env : Env) (skb : Skb) (trhsize vid : Nat) (orig : Bool)
    (o : Bool) (n : Nat) (v : Bool) (s : Skb) :
    Action.emitted o n v s ∉ rbr_decaps env skb trhsize vid orig := by
  unfold rbr_decaps
  split_ifs with h
  · intro hmem
    rcases List.mem_cons.mp hmem with hmem | hmem
    · exact absurd hmem (by simp)
    · exact no_emitted_decap_finish env _ vid o n v s hmem
  · simp

/-- With free_on_exhaustion = false the replication loop never records
a first adjacency. -/
theorem mdLoop_false_preserves (env : Env) (rbr : Rbr) (skb : Skb) (ing : Nat)
    (saddr : Option (List Nat)) (vid : Nat) :
    ∀ l (ns : Bool) (sn : Nat),
      (mdLoop env rbr skb ing saddr vid false l ns sn).2.1 = ns ∧
      (mdLoop env rbr skb ing saddr vid false l ns sn).2.2.1 = sn := by
  intro l
  induction l with
  | nil => exact fun ns sn => ⟨rfl, rfl⟩
  | cons a t ih =>
    intro ns sn
    simp only [mdLoop]
    by_cases h1 : ing = a
    · simp only [if_pos h1]
      exact ih ns sn
    · simp only [if_neg h1]
      rcases hfind : rbr_find_node rbr a with _ | adj

      · exact ih ns sn
      · by_cases h3 : saddr = some adj.adjsnpa
        · simp only [if_pos h3]
          exact ih ns sn
        · simp only [if_neg h3]
          rw [if_neg (by simp)]
          by_cases hc : env.copyOk = true
          · rw [if_pos hc]
            exact ih ns sn
          · rw [if_neg hc]
            exact ⟨rfl, rfl⟩

/-- An emitted action in an rbr_fwd_finish trace carries that call's
nickname and origin tag. -/
theorem emitted_mem_rbr_fwd_finish (env : Env) (s0 : Skb) (nick vid : Nat)
    (orig : Bool) (o : Bool) (n : Nat) (v : Bool) (s : Skb)
    (hmem : Action.emitted o n v s ∈ rbr_fwd_finish env s0 nick vid orig) :
    n = nick ∧ o = orig := by
  unfold rbr_fwd_finish at hmem
  rcases hfdb : env.fdbGet (readBytes s0.buf s0.macOff 6) vid with _ | e <;>
    simp only [hfdb, List.mem_singleton, Action.emitted.injEq] at hmem <;>
    exact ⟨hmem.2.1, hmem.1⟩

/-- An emitted action in an rbr_fwd trace carries that call's nickname
and origin tag. -/
theorem emitted_mem_rbr_fwd (env : Env) (rbr : Rbr) (skb : Skb) (a vid : Nat)
    (orig : Bool) (adj : RbrNi) (hfind : rbr_find_node rbr a = some adj)
    (o : Bool) (n : Nat) (v : Bool) (s : Skb)
    (hmem : Action.emitted o n v s ∈ rbr_fwd env rbr skb a vid orig) :
    n = a ∧ o = orig := by
  unfold rbr_fwd at hmem
  simp only [hfind] at hmem
  exact emitted_mem_rbr_fwd_finish env _ a vid orig o n v s hmem

/-- Every frame the replication loop emits goes to an adjacency that
passed all the skip tests: installed in the table, not the ingress
nickname, and not matching the pruned source MAC; and it is emitted
through rbr_fwd on the loop's buffer. -/
theorem mdLoop_emitted_sound (env : Env) (rbr : Rbr) (skb : Skb) (ing : Nat)
    (saddr : Option (List Nat)) (vid : Nat) (free : Bool) :
    ∀ l (ns : Bool) (sn : Nat) (o : Bool) (n : Nat) (v : Bool) (s : Skb),
      Action.emitted o n v s ∈ (mdLoop env rbr skb ing saddr vid free l ns sn).1 →
      ∃ adj, rbr_find_node rbr n = some adj ∧ ing ≠ n ∧ saddr ≠ some adj.adjsnpa ∧
        Action.emitted o n v s ∈ rbr_fwd env rbr skb n vid false := by
  intro l
  induction l with
  | nil => intro ns sn o n v s hmem; exact absurd hmem (by simp [mdLoop])
  | cons a t ih =>
    intro ns sn o n v s hmem
    rw [mdLoop] at hmem
    by_cases h1 : ing = a
    · rw [if_pos h1] at hmem
      exact ih ns sn o n v s hmem
    · rw [if_neg h1] at hmem
      rcases hfind : rbr_find_node rbr a with _ | adj <;> simp only [hfind] at hmem
      · exact ih ns sn o n v s hmem
      · by_cases h3 : saddr = some adj.adjsnpa
        · rw [if_pos h3] at hmem
          exact ih ns sn o n v s hmem
        · rw [if_neg h3] at hmem
          by_cases h4 : ¬ns = true ∧ free = true
          · rw [if_pos h4] at hmem
            exact ih true a o n v s hmem
          · rw [if_neg h4] at hmem
            by_cases hc : env.copyOk = true
            · rw [if_pos hc] at hmem
              simp only [List.mem_append] at hmem
              rcases hmem with hmem | hmem
              · obtain ⟨hn, _⟩ :=
                  emitted_mem_rbr_fwd env rbr skb a vid false adj hfind o n v s hmem
                subst hn
                exact ⟨adj, hfind, h1, h3, hmem⟩
              · exact ih ns sn o n v s hmem
            · rw [if_neg hc] at hmem
              exact absurd hmem (by simp)

theorem rbr_find_node_nodes (rbr : Rbr) (n : Nat) (ni : RbrNi)
    (h : rbr_find_node rbr n = some ni) : rbr.nodes n = some ni := by
  unfold rbr_find_node at h
  split_ifs at h
  exact h

/-- Every frame rbr_multidest_fwd emits on the receive path (free =
false) goes to a surviving adjacency, through rbr_fwd. -/
theorem rbr_multidest_fwd_emitted_false (env : Env) (rbr : Rbr) (skb : Skb)
    (egress ing : Nat) (saddr : Option (List Nat)) (vid : Nat) (orig : Bool)
    (o : Bool) (n : Nat) (v : Bool) (s : Skb)
    (hmem : Action.emitted o n v s ∈
      (rbr_multidest_fwd env rbr skb egress ing saddr vid false orig).1) :
    ∃ adj, rbr_find_node rbr n = some adj ∧ ing ≠ n ∧ saddr ≠ some adj.adjsnpa ∧
      Action.emitted o n v s ∈ rbr_fwd env rbr skb n vid false := by
  unfold rbr_multidest_fwd at hmem
  rcases hdest : rbr_find_node rbr egress with _ | dest <;> simp only [hdest] at hmem
  · exact absurd hmem (by simp)
  · rcases hloop : mdLoop env rbr skb ing saddr vid false dest.adjnicks false 0
      with ⟨acts, ns, sn, ok⟩
    simp only [hloop] at hmem
    have hns : ns = false := by
      have h := (mdLoop_false_preserves env rbr skb ing saddr vid dest.adjnicks false 0).1
      rw [hloop] at h
      exact h
    subst hns
    have hacts : Action.emitted o n v s ∈ acts := by
      cases ok
      · exact (List.mem_append.mp hmem).resolve_right (by simp)
      · exact (List.mem_append.mp hmem).resolve_right (by simp)
    have hacts' : Action.emitted o n v s ∈
        (mdLoop env rbr skb ing saddr vid false dest.adjnicks false 0).1 := by
      rw [hloop]
      exact hacts
    exact mdLoop_emitted_sound env rbr skb ing saddr vid false dest.adjnicks false 0
      o n v s hacts'

/-- Every frame the multi-destination receive tail emits goes to a
surviving adjacency: installed, not the ingress nickname, and not
matching the arriving outer source MAC. -/
theorem rbr_recv_mdest_tail_emitted (env : Env) (rbr : Rbr) (skb : Skb)
    (flags egr ing : Nat) (srcaddr : List Nat) (trhsize vid : Nat)
    (o : Bool) (n : Nat) (v : Bool) (s : Skb)
    (hmem : Action.emitted o n v s ∈
      rbr_recv_mdest_tail env rbr skb flags egr ing srcaddr trhsize vid) :
    ∃ adj, rbr_find_node rbr n = some adj ∧ ing ≠ n ∧
      some srcaddr ≠ some adj.adjsnpa ∧
      Action.emitted o n v s ∈ rbr_fwd env rbr skb n vid false := by
  unfold rbr_recv_mdest_tail at hmem
  split_ifs at hmem with h1 h2
  · exact absurd hmem (by simp)
  · rcases hmd : rbr_multidest_fwd env rbr skb egr ing (some srcaddr) vid false false
      with ⟨acts, ok⟩
    simp only [hmd] at hmem
    have hacts : Action.emitted o n v s ∈ acts := by
      cases ok
      · exact (List.mem_append.mp hmem).resolve_right (by simp)
      · exact (List.mem_append.mp hmem).resolve_right
          (no_emitted_decaps env skb trhsize vid true o n v s)
    have hacts' : Action.emitted o n v s ∈
        (rbr_multidest_fwd env rbr skb egr ing (some srcaddr) vid false false).1 := by
      rw [hmd]
      exact hacts
    exact rbr_multidest_fwd_emitted_false env rbr skb egr ing (some srcaddr) vid false
      o n v s hacts'
  · exact absurd hmem (by simp)

/-- C6: on the multi-destination receive path, no emitted copy has
outer destination MAC equal to the arriving frame's outer source MAC,
and no copy is forwarded to an adjacency whose nickname equals the
frame's ingress nickname. -/
theorem claim_C6 (env : Env) (rbr : Rbr) (skb : Skb) (vid : Nat)
    (hmulti : trill_get_multidest (readBE16 skb.buf skb.dataOff) ≠ 0)
    (hwf : RbrWF rbr) (o : Bool) (n : Nat) (v : Bool) (s : Skb)
    (hmem : Action.emitted o n v s ∈ rbr_recv env rbr skb vid) :
    readBytes s.buf s.macOff 6 ≠ readBytes skb.buf (skb.macOff + 6) 6 ∧
    n ≠ readBE16 skb.buf (skb.dataOff + 4) := by
  unfold rbr_recv at hmem
  split_ifs at hmem with h1 h2
  · exact absurd hmem (by simp)
  · exact absurd hmem (by simp)
  · unfold rbr_recv_body at hmem
    by_cases h3 : ¬(VALID_NICK (readBE16 skb.buf (skb.dataOff + 4)) ∧
        VALID_NICK (readBE16 skb.buf (skb.dataOff + 2)))
    · rw [if_pos h3] at hmem
      exact absurd hmem (by simp)
    · rw [if_neg h3] at hmem
      by_cases h4 : trill_get_version (readBE16 skb.buf skb.dataOff) ≠ TRILL_PROTOCOL_VERS
      · rw [if_pos h4] at hmem
        exact absurd hmem (by simp)
      · rw [if_neg h4] at hmem
        by_cases h5 : readBE16 skb.buf (skb.dataOff + 4) = rbr.nick
        · rw [if_pos h5] at hmem
          exact absurd hmem (by simp)
        · rw [if_neg h5] at hmem
          by_cases h6 : trill_get_optslen (readBE16 skb.buf skb.dataOff) ≠ 0
          · rw [if_pos h6] at hmem
            exact absurd hmem (by simp)
          · rw [if_neg h6, if_neg hmulti] at hmem
            rcases hdest : rbr_find_node rbr (readBE16 skb.buf (skb.dataOff + 2))
                with _ | dest <;> simp only [hdest] at hmem
            · exact absurd hmem (by simp)
            · by_cases h10 : ¬rbr_adj_src_check rbr dest
                  (readBytes skb.buf (skb.macOff + 6) 6)
              · rw [if_pos h10] at hmem
                exact absurd hmem (by simp)
              · rw [if_neg h10] at hmem
                rcases hsrc : rbr_find_node rbr (readBE16 skb.buf (skb.dataOff + 4))
                    with _ | source_node <;> simp only [hsrc] at hmem
                · exact absurd hmem (by simp)
                · have htail : Action.emitted o n v s ∈
                      rbr_recv_mdest_tail env rbr { skb with encap := true }
                        (readBE16 skb.buf skb.dataOff)
                        (readBE16 skb.buf (skb.dataOff + 2))
                        (readBE16 skb.buf (skb.dataOff + 4))
                        (readBytes skb.buf (skb.macOff + 6) 6)
                        (TRILL_HDR_SIZE + trill_get_optslen (readBE16 skb.buf skb.dataOff))
                        vid := by
                    by_cases h11 : readBE16 skb.buf (skb.dataOff + 2) ∈ source_node.dtroots
                    · rw [if_pos h11] at hmem
                      exact hmem
                    · rw [if_neg h11] at hmem
                      by_cases h12 : source_node.dtroots ≠ [] ∨
                          readBE16 skb.buf (skb.dataOff + 2) ≠ rbr.treeroot
                      · rw [if_pos h12] at hmem
                        exact absurd hmem (by simp)
                      · rw [if_neg h12] at hmem
                        exact hmem
                  obtain ⟨adj, hfind, hing, hprune, hmemF⟩ :=
                    rbr_recv_mdest_tail_emitted env rbr { skb with encap := true }
                      (readBE16 skb.buf skb.dataOff)
                      (readBE16 skb.buf (skb.dataOff + 2))
                      (readBE16 skb.buf (skb.dataOff + 4))
                      (readBytes skb.buf (skb.macOff + 6) 6)
                      (TRILL_HDR_SIZE + trill_get_optslen (readBE16 skb.buf skb.dataOff))
                      vid o n v s htail
                  have hsnpa : adj.adjsnpa.length = 6 :=
                    hwf n adj (rbr_find_node_nodes rbr n adj hfind)
                  obtain ⟨v1, s1, heqF, hd1, hm1, hdst1, _⟩ :=
                    rbr_fwd_emits env rbr { skb with encap := true } n vid false adj
                      hfind hsnpa
                  rw [heqF] at hmemF
                  simp only [List.mem_singleton, Action.emitted.injEq] at hmemF
                  obtain ⟨ho, _, hv2, hs2⟩ := hmemF
                  subst hs2
                  constructor
                  · rw [hdst1]
                    intro hh
                    exact hprune (by rw [hh])
                  · exact Ne.symm hing

/-- Witness for C6: on the concrete multi-destination frame skbMD the
copy emitted toward adjacency 9 has outer destination ≠ the arriving
outer source, and 9 is not the frame's ingress nickname. -/
theorem claim_C6_witness :
    readBytes skbMD_out.buf skbMD_out.macOff 6 ≠
      readBytes skbMD.buf (skbMD.macOff + 6) 6 ∧
    9 ≠ readBE16 skbMD.buf (skbMD.dataOff + 4) :=
  claim_C6 envW rbrR skbMD 10 (by decide) rbrR_wf false 9 false skbMD_out (by decide)

/-- rbr_encaps fails (returns the C code's 1) when the headroom
guarantee fails, or when VLAN tag reinsertion is needed and fails. -/
theorem rbr_encaps_fails (env : Env) (skb : Skb) (ing egr : Nat) (multi : Bool)
    (h : env.cowOk = false ∨ (env.vlanOk = false ∧ skb.vlan_tci ≠ none)) :
    rbr_encaps env skb ing egr multi = none := by
  have hbody : ∀ s, env.cowOk = false → rbr_encaps_body env s ing egr multi = none := by
    intro s hc
    unfold rbr_encaps_body
    rw [hc]
    rfl
  unfold rbr_encaps
  rcases hv : skb.vlan_tci with _ | tci
  · rcases h with hc | ⟨_, hne⟩
    · simp only [skb_push, hv]
      exact hbody _ hc
    · exact absurd hv hne
  · rcases h with hc | ⟨hvf, _⟩
    · simp only [skb_push, hv]
      split_ifs with hok
      · exact hbody _ hc
      · rfl
    · simp only [skb_push, hv, hvf]
      rfl

theorem readBE16_writeBytes_block (buf : List Nat) (off k : Nat) (bs : List Nat)
    (n : Nat) (hn : n < 65536) (hb0 : readByte bs k = n / 256 % 256)
    (hb1 : readByte bs (k + 1) = n % 256) (hlen : k + 1 < bs.length) :
    readBE16 (writeBytes buf off bs) (off + k) = n := by
  unfold readBE16
  rw [readByte_writeBytes_in _ _ _ k (by omega), hb0]
  have h2 : off + k + 1 = off + (k + 1) := by omega
  rw [h2, readByte_writeBytes_in _ _ _ (k + 1) hlen, hb1]
  have hd : n / 256 < 256 := by omega
  rw [Nat.mod_eq_of_lt hd]
  have := Nat.div_add_mod n 256
  omega

theorem encapsFlags_lt (multi : Bool) : encapsFlags multi < 65536 := by
  cases multi <;> decide

/-- The explicit result of rbr_encaps_body: 22 bytes of fresh headroom,
the TRILL header written right before the old data offset, the outer
EtherType written before that; data points at the TRILL header and the
mac header at the outer Ethernet header. -/
theorem rbr_encaps_body_eq (env : Env) (sb : Skb) (ing egr : Nat) (multi : Bool)
    (hcow : env.cowOk = true) :
    rbr_encaps_body env sb ing egr multi = some
      { buf := writeBytes (writeBytes (List.replicate 22 0 ++ sb.buf) (sb.dataOff + 14)
          (be16 (encapsFlags multi) ++ be16 egr ++ be16 ing ++ [0, 0]))
          (sb.dataOff + 12) (be16 ETH_P_TRILL),
        dataOff := sb.dataOff + 14, macOff := sb.dataOff,
        encap := sb.encap, vlan_tci := sb.vlan_tci, vlan_proto := sb.vlan_proto,
        protocol := sb.protocol } := by
  unfold rbr_encaps_body
  rw [if_pos hcow]
  rfl

/-- Header facts about any successful rbr_encaps_body result: the
egress nickname sits two bytes past the data offset, the flags word at
the data offset, and the outer mac header 14 bytes before it. -/
theorem rbr_encaps_body_facts (env : Env) (sb : Skb) (ing egr : Nat) (multi : Bool)
    (s1 : Skb) (hegr : egr < 65536)
    (heq : rbr_encaps_body env sb ing egr multi = some s1) :
    readBE16 s1.buf (s1.dataOff + 2) = egr ∧
    readBE16 s1.buf s1.dataOff = encapsFlags multi ∧
    s1.dataOff = s1.macOff + ETH_HLEN := by
  by_cases hcow : env.cowOk = true
  · rw [rbr_encaps_body_eq env sb ing egr multi hcow] at heq
    injection heq with heq
    subst heq
    refine ⟨?_, ?_, rfl⟩
    · show readBE16 (writeBytes (writeBytes (List.replicate 22 0 ++ sb.buf)
        (sb.dataOff + 14) (be16 (encapsFlags multi) ++ be16 egr ++ be16 ing ++ [0, 0]))
        (sb.dataOff + 12) (be16 ETH_P_TRILL)) (sb.dataOff + 14 + 2) = egr
      rw [readBE16_writeBytes_ge _ _ _ _
        (by simp only [be16, List.length_cons, List.length_nil]; omega)]
      exact readBE16_writeBytes_block (List.replicate 22 0 ++ sb.buf) (sb.dataOff + 14) 2
        (be16 (encapsFlags multi) ++ be16 egr ++ be16 ing ++ [0, 0]) egr hegr (by rfl)
        (by rfl) (by simp [be16])
    · show readBE16 (writeBytes (writeBytes (List.replicate 22 0 ++ sb.buf)
        (sb.dataOff + 14) (be16 (encapsFlags multi) ++ be16 egr ++ be16 ing ++ [0, 0]))
        (sb.dataOff + 12) (be16 ETH_P_TRILL)) (sb.dataOff + 14) = encapsFlags multi
      rw [readBE16_writeBytes_ge _ _ _ _
        (by simp only [be16, List.length_cons, List.length_nil]; omega)]
      have h0 := readBE16_writeBytes_block (List.replicate 22 0 ++ sb.buf)
        (sb.dataOff + 14) 0 (be16 (encapsFlags multi) ++ be16 egr ++ be16 ing ++ [0, 0])
        (encapsFlags multi) (encapsFlags_lt multi) (by rfl) (by rfl) (by simp [be16])
      simpa using h0
  · rw [show rbr_encaps_body env sb ing egr multi = none by
      unfold rbr_encaps_body
      rw [if_neg hcow]] at heq
    exact absurd heq (by simp)

/-- Header facts about any successful rbr_encaps result. -/
theorem rbr_encaps_facts (env : Env) (skb : Skb) (ing egr : Nat) (multi : Bool)
    (s1 : Skb) (hegr : egr < 65536)
    (heq : rbr_encaps env skb ing egr multi = some s1) :
    readBE16 s1.buf (s1.dataOff + 2) = egr ∧
    readBE16 s1.buf s1.dataOff = encapsFlags multi ∧
    s1.dataOff = s1.macOff + ETH_HLEN := by
  unfold rbr_encaps at heq
  simp only [skb_push] at heq
  rcases hv : skb.vlan_tci with _ | tci <;> simp only [hv] at heq
  · exact rbr_encaps_body_facts env _ ing egr multi s1 hegr heq
  · by_cases hok : env.vlanOk = true
    · rw [if_pos hok] at heq
      exact rbr_encaps_body_facts env _ ing egr multi s1 hegr heq
    · rw [if_neg hok] at heq
      exact absurd heq (by simp)

/-- rbr_encaps on a frame without an accelerated VLAN tag, with a
successful headroom guarantee: the explicit result. -/
theorem rbr_encaps_no_vlan (env : Env) (skb : Skb) (ing egr : Nat) (multi : Bool)
    (hvlan : skb.vlan_tci = none) (hcow : env.cowOk = true) :
    rbr_encaps env skb ing egr multi = some
      { buf := writeBytes (writeBytes (List.replicate 22 0 ++ skb.buf)
          (skb.dataOff - 14 + 14)
          (be16 (encapsFlags multi) ++ be16 egr ++ be16 ing ++ [0, 0]))
          (skb.dataOff - 14 + 12) (be16 ETH_P_TRILL),
        dataOff := skb.dataOff - 14 + 14, macOff := skb.dataOff - 14,
        encap := true, vlan_tci := none, vlan_proto := skb.vlan_proto,
        protocol := skb.protocol } := by
  unfold rbr_encaps
  simp only [skb_push, hvlan]
  rw [rbr_encaps_body_eq env _ ing egr multi hcow]
  simp [hvlan, ETH_HLEN]

/-- The replication loop only ever records adjacencies that are
installed in the table. -/
theorem mdLoop_saved_invariant (env : Env) (rbr : Rbr) (skb : Skb) (ing : Nat)
    (saddr : Option (List Nat)) (vid : Nat) (free : Bool) :
    ∀ l (ns : Bool) (sn : Nat),
      (ns = true → ∃ adj, rbr_find_node rbr sn = some adj) →
      (mdLoop env rbr skb ing saddr vid free l ns sn).2.1 = true →
      ∃ adj, rbr_find_node rbr
        (mdLoop env rbr skb ing saddr vid free l ns sn).2.2.1 = some adj := by
  intro l
  induction l with
  | nil => intro ns sn hinv hok; exact hinv hok
  | cons a t ih =>
    intro ns sn hinv
    simp only [mdLoop]
    by_cases h1 : ing = a
    · simp only [if_pos h1]
      exact ih ns sn hinv
    · simp only [if_neg h1]
      rcases hfind : rbr_find_node rbr a with _ | adj
      · exact ih ns sn hinv
      · by_cases h3 : saddr = some adj.adjsnpa
        · simp only [if_pos h3]
          exact ih ns sn hinv
        · simp only [if_neg h3]
          by_cases h4 : ¬ns = true ∧ free = true
          · rw [if_pos h4]
            exact ih true a (fun _ => ⟨adj, hfind⟩)
          · rw [if_neg h4]
            by_cases hc : env.copyOk = true
            · rw [if_pos hc]
              exact ih ns sn hinv
            · rw [if_neg hc]
              exact hinv

/-- Every frame rbr_multidest_fwd emits goes to an adjacency installed
in the table, through rbr_fwd on the invocation's buffer. -/
theorem rbr_multidest_fwd_emitted_any (env : Env) (rbr : Rbr) (skb : Skb)
    (egress ing : Nat) (saddr : Option (List Nat)) (vid : Nat) (free orig : Bool)
    (o : Bool) (n : Nat) (v : Bool) (s : Skb)
    (hmem : Action.emitted o n v s ∈
      (rbr_multidest_fwd env rbr skb egress ing saddr vid free orig).1) :
    ∃ adj tag, rbr_find_node rbr n = some adj ∧
      Action.emitted o n v s ∈ rbr_fwd env rbr skb n vid tag := by
  unfold rbr_multidest_fwd at hmem
  rcases hdest : rbr_find_node rbr egress with _ | dest <;> simp only [hdest] at hmem
  · exact absurd hmem (by simp)
  · rcases hloop : mdLoop env rbr skb ing saddr vid free dest.adjnicks false 0
      with ⟨acts, ns, sn, ok⟩
    simp only [hloop] at hmem
    have hfromLoop : Action.emitted o n v s ∈ acts →
        ∃ adj tag, rbr_find_node rbr n = some adj ∧
          Action.emitted o n v s ∈ rbr_fwd env rbr skb n vid tag := by
      intro hacts
      have hacts' : Action.emitted o n v s ∈
          (mdLoop env rbr skb ing saddr vid free dest.adjnicks false 0).1 := by
        rw [hloop]
        exact hacts
      obtain ⟨adj, hfadj, _, _, hmemF⟩ :=
        mdLoop_emitted_sound env rbr skb ing saddr vid free dest.adjnicks false 0
          o n v s hacts'
      exact ⟨adj, false, hfadj, hmemF⟩
    cases ok
    · exact hfromLoop ((List.mem_append.mp hmem).resolve_right (by simp))
    · cases ns
      · exact hfromLoop ((List.mem_append.mp hmem).resolve_right (by simp))
      · rcases List.mem_append.mp hmem with hacts | hfwd
        · exact hfromLoop hacts
        · have hsome : ∃ adj, rbr_find_node rbr sn = some adj := by
            have h := mdLoop_saved_invariant env rbr skb ing saddr vid free
              dest.adjnicks false 0 (fun hcon => absurd hcon (by simp))
            rw [hloop] at h
            exact h rfl
          obtain ⟨adj, hfadj⟩ := hsome
          obtain ⟨hn, _⟩ :=
            emitted_mem_rbr_fwd env rbr skb sn vid orig adj hfadj o n v s hfwd
          subst hn
          exact ⟨adj, orig, hfadj, hfwd⟩

/-- C8: with a valid local nickname whose node is installed, the flood
path of the Encapsulator uses dt_roots[0] of the local node when it
advertises any distribution-tree roots and state.tree_root otherwise
(encapsDtrNick); if that root is not a valid nickname the frame is
dropped, and otherwise every frame emitted by the flood carries the
chosen root in its egress-nickname field. -/
theorem claim_C8 (env : Env) (rbr : Rbr) (skb : Skb) (vid : Nat) (ni : RbrNi)
    (hlocal : VALID_NICK rbr.nick)
    (hfind : rbr_find_node rbr rbr.nick = some ni)
    (hbr : env.brDevAddr.length = 6)
    (hfdbl : ∀ m v' e', env.fdbGet m v' = some e' → e'.devAddr.length = 6)
    (hwf : RbrWF rbr)
    (hroot16 : encapsDtrNick rbr ni < 65536) :
    (¬VALID_NICK (encapsDtrNick rbr ni) →
      rbr_encaps_prepare env rbr skb RBRIDGE_NICKNAME_NONE vid =
        [Action.txDrop, Action.free true]) ∧
    (∀ o n v s, Action.emitted o n v s ∈
        rbr_encaps_prepare env rbr skb RBRIDGE_NICKNAME_NONE vid →
      readBE16 s.buf (s.dataOff + 2) = encapsDtrNick rbr ni) := by
  constructor
  · intro hroot
    unfold rbr_encaps_prepare
    rw [if_neg (by simp), if_neg (not_not_intro hlocal), if_pos rfl]
    simp only [hfind]
    rw [if_pos hroot]
  · intro o n v s hmem
    unfold rbr_encaps_prepare at hmem
    rw [if_neg (by simp), if_neg (not_not_intro hlocal), if_pos rfl] at hmem
    simp only [hfind] at hmem
    by_cases hroot : ¬VALID_NICK (encapsDtrNick rbr ni)
    · rw [if_pos hroot] at hmem
      exact absurd hmem (by simp)
    · rw [if_neg hroot] at hmem
      by_cases hclone : ¬env.cloneOk = true
      · rw [if_pos hclone] at hmem
        exact absurd hmem (by simp)
      · rw [if_neg hclone] at hmem
        rcases List.mem_cons.mp hmem with h | hmem2
        · exact absurd h (by simp)
        · rcases henc : rbr_encaps env skb rbr.nick (encapsDtrNick rbr ni) true
              with _ | skb1 <;> simp only [henc] at hmem2
          · exact absurd hmem2 (by simp)
          · obtain ⟨hegrF, hflagsF, hoffF⟩ := rbr_encaps_facts env skb rbr.nick
              (encapsDtrNick rbr ni) true skb1 hroot16 henc
            obtain ⟨adj, tag, hfadj, hmemF⟩ := rbr_multidest_fwd_emitted_any env rbr skb1
              (encapsDtrNick rbr ni) rbr.nick none vid true true o n v s hmem2
            have hsnpa : adj.adjsnpa.length = 6 :=
              hwf n adj (rbr_find_node_nodes rbr n adj hfadj)
            obtain ⟨v1, s1, heqF, hd1, hm1, hdst1, hcond⟩ :=
              rbr_fwd_emits env rbr skb1 n vid tag adj hfadj hsnpa
            obtain ⟨_, hpres⟩ := hcond hbr hfdbl (le_of_eq hoffF.symm)
              (by rw [hflagsF]; exact encapsFlags_lt true)
            rw [heqF] at hmemF
            simp only [List.mem_singleton, Action.emitted.injEq] at hmemF
            obtain ⟨_, _, _, hs2⟩ := hmemF
            subst hs2
            rw [hd1, hpres (skb1.dataOff + 2) (by omega)]
            exact hegrF

theorem claim_C8_witness :
    rbr_encaps_prepare envW rbrM0 skbE RBRIDGE_NICKNAME_NONE 10 =
      [Action.txDrop, Action.free true] ∧
    Action.emitted true 3 false skbC8_out ∈
      rbr_encaps_prepare envW rbrM skbE RBRIDGE_NICKNAME_NONE 10 ∧
    readBE16 skbC8_out.buf (skbC8_out.dataOff + 2) = 4 := by
  refine ⟨?_, ?_, ?_⟩
  · exact (claim_C8 envW rbrM0 skbE 10
      { adjsnpa := [2, 2, 2, 2, 2, 2], adjnicks := [], dtroots := [] }
      (by decide) (by decide) (by decide)
      (fun m v' e' h => absurd h (by simp [envW]))
      (fun n ni h => rbrM_wf n ni h) (by decide)).1 (by decide)
  · decide
  · have h := (claim_C8 envW rbrM skbE 10
      { adjsnpa := [2, 2, 2, 2, 2, 2], adjnicks := [], dtroots := [] }
      (by decide) (by decide) (by decide)
      (fun m v' e' h => absurd h (by simp [envW]))
      rbrM_wf (by decide)).2 true 3 false skbC8_out (by decide)
    exact h.trans (by decide)

/-- C10: in the flood path the clone for local end-station delivery is
handed off before TRILL encapsulation of the original is attempted; if
encapsulation then fails (headroom or VLAN reinsertion failure), the
original is dropped with tx-dropped bumped, but the local copy has
already been delivered: the trace is exactly deliver-then-drop. -/
theorem claim_C10 (env : Env) (rbr : Rbr) (skb : Skb) (vid : Nat) (ni : RbrNi)
    (hlocal : VALID_NICK rbr.nick)
    (hfind : rbr_find_node rbr rbr.nick = some ni)
    (hroot : VALID_NICK (encapsDtrNick rbr ni))
    (hclone : env.cloneOk = true)
    (hfail : env.cowOk = false ∨ (env.vlanOk = false ∧ skb.vlan_tci ≠ none)) :
    rbr_encaps_prepare env rbr skb RBRIDGE_NICKNAME_NONE vid =
      [Action.endstationDeliver skb, Action.txDrop, Action.free true] := by
  unfold rbr_encaps_prepare
  rw [if_neg (by simp)]
  rw [if_neg (not_not_intro hlocal), if_pos rfl]
  simp only [hfind]
  rw [if_neg (not_not_intro hroot), if_neg (by rw [hclone]; simp)]
  rw [rbr_encaps_fails env skb rbr.nick (encapsDtrNick rbr ni) true hfail]

/-- Witness for C10: concrete flood with a failing cow_head; the trace
shows the local delivery happening before the drop. -/
theorem claim_C10_witness :
    rbr_encaps_prepare envW_nocow rbrM skbE RBRIDGE_NICKNAME_NONE 10 =
      [Action.endstationDeliver skbE, Action.txDrop, Action.free true] :=
  claim_C10 envW_nocow rbrM skbE 10
    { adjsnpa := [2, 2, 2, 2, 2, 2], adjnicks := [], dtroots := [] }
    (by decide) (by decide) (by decide) (by decide) (Or.inl (by decide))

/-- Witness for C4 at concrete frames: the hop-1 transit frame skbW is
forwarded with hop 0, and the hop-1 locally-addressed frame is
delivered. -/
theorem claim_C4_witness :
    (∃ v s, rbr_recv envW rbrW skbW 10 =
        [Action.fdbUpdate (readBytes skbW.buf (skbW.macOff + 6) 6) 10,
         Action.emitted true (readBE16 skbW.buf (skbW.dataOff + 2)) v s] ∧
      trill_get_hopcount (readBE16 s.buf s.dataOff) = 0) ∧
    ∃ s, deliveredSkb s (rbr_recv envW rbrW skbW_hop1_local 10) ∧
      Action.rxDrop ∉ rbr_recv envW rbrW skbW_hop1_local 10 :=
  ⟨(claim_C4 envW rbrW skbW 10).1
      { adjsnpa := [3, 3, 3, 3, 3, 3], adjnicks := [], dtroots := [] }
      (by decide) (by decide) (by decide) (by decide) (by decide) (by decide)
      (by decide) (by decide) (fun m v' e' h => by simp [envW] at h) (by decide) (by decide),
   (claim_C4 envW rbrW skbW_hop1_local 10).2 (by decide) (by decide) (by decide) (by decide)⟩

/-- rbr_decaps at the base TRILL header size, computed: the learning
hint reads the inner source MAC and the header's ingress nickname, and
the inner frame (offsets advanced past the TRILL and inner Ethernet
headers, protocol refreshed, encap flag cleared) goes to
rbr_decap_finish. -/
theorem rbr_decaps_eq (env : Env) (skb : Skb) (vid : Nat) (orig : Bool) :
    rbr_decaps env skb TRILL_HDR_SIZE vid orig =
      Action.fdbUpdateNick (readBytes skb.buf (skb.dataOff + 8 + 6) 6) vid
          (readBE16 skb.buf (skb.dataOff + 4)) ::
        rbr_decap_finish env
          { skb with dataOff := skb.dataOff + 8 + ETH_HLEN,
                     macOff := skb.dataOff + 8,
                     protocol := readBE16 skb.buf (skb.dataOff + 8 + 12),
                     encap := false } vid := by
  unfold rbr_decaps
  rw [if_pos (le_refl TRILL_HDR_SIZE)]
  rfl

/-- C7: encapsulating an end-station frame at RBridge A towards egress
nickname B and then decapsulating the result yields a learning hint
{inner source MAC, vid, A} and a locally delivered frame whose bytes
from its mac header on are identical to the input frame's. -/
theorem claim_C7 (envA envB : Env) (skb : Skb) (A B vid : Nat)
    (hd : skb.dataOff = skb.macOff + ETH_HLEN)
    (hvlan : skb.vlan_tci = none)
    (hcow : envA.cowOk = true)
    (hA : A < 65536) :
    ∃ skb1, rbr_encaps envA skb A B false = some skb1 ∧
      Action.fdbUpdateNick (readBytes skb.buf (skb.macOff + 6) 6) vid A ∈
        rbr_decaps envB skb1 TRILL_HDR_SIZE vid true ∧
      ∃ s, deliveredSkb s (rbr_decaps envB skb1 TRILL_HDR_SIZE vid true) ∧
        s.buf.drop s.macOff = skb.buf.drop skb.macOff := by
  have henc := rbr_encaps_no_vlan envA skb A B false hvlan hcow
  rw [hd] at henc
  simp only [ETH_HLEN, Nat.add_sub_cancel] at henc
  refine ⟨_, henc, ?_, ?_⟩
  · rw [rbr_decaps_eq]
    have hIng : readBE16 (writeBytes (writeBytes (List.replicate 22 0 ++ skb.buf)
        (skb.macOff + 14) (be16 (encapsFlags false) ++ be16 B ++ be16 A ++ [0, 0]))
        (skb.macOff + 12) (be16 ETH_P_TRILL)) (skb.macOff + 14 + 4) = A := by
      rw [readBE16_writeBytes_ge _ _ _ _
        (by simp only [be16, List.length_cons, List.length_nil]; omega)]
      exact readBE16_writeBytes_block (List.replicate 22 0 ++ skb.buf) (skb.macOff + 14) 4
        (be16 (encapsFlags false) ++ be16 B ++ be16 A ++ [0, 0]) A hA (by rfl) (by rfl)
        (by simp [be16])
    have hSrc : readBytes (writeBytes (writeBytes (List.replicate 22 0 ++ skb.buf)
        (skb.macOff + 14) (be16 (encapsFlags false) ++ be16 B ++ be16 A ++ [0, 0]))
        (skb.macOff + 12) (be16 ETH_P_TRILL)) (skb.macOff + 14 + 8 + 6) 6 =
        readBytes skb.buf (skb.macOff + 6) 6 := by
      rw [readBytes_writeBytes_ge _ _ _ _ _
        (by simp only [be16, List.length_cons, List.length_nil]; omega)]
      rw [readBytes_writeBytes_ge _ _ _ _ _
        (by simp only [be16, List.length_append, List.length_cons, List.length_nil]; omega)]
      unfold readBytes
      rw [drop_replicate_append 22 (skb.macOff + 14 + 8 + 6) 0 skb.buf (by omega)]
      have h6 : skb.macOff + 14 + 8 + 6 - 22 = skb.macOff + 6 := by omega
      rw [h6]
    simp only [hIng, hSrc]
    exact List.mem_cons_self _ _
  · rw [rbr_decaps_eq]
    obtain ⟨hdel, _⟩ := rbr_decap_finish_delivers envB
      { buf := writeBytes (writeBytes (List.replicate 22 0 ++ skb.buf)
          (skb.macOff + 14) (be16 (encapsFlags false) ++ be16 B ++ be16 A ++ [0, 0]))
          (skb.macOff + 12) (be16 ETH_P_TRILL),
        dataOff := skb.macOff + 14 + 8 + ETH_HLEN, macOff := skb.macOff + 14 + 8,
        encap := false, vlan_tci := none, vlan_proto := skb.vlan_proto,
        protocol := readBE16 (writeBytes (writeBytes (List.replicate 22 0 ++ skb.buf)
          (skb.macOff + 14) (be16 (encapsFlags false) ++ be16 B ++ be16 A ++ [0, 0]))
          (skb.macOff + 12) (be16 ETH_P_TRILL)) (skb.macOff + 14 + 8 + 12) } vid
    refine ⟨_, deliveredSkb_cons _ _ _ hdel, ?_⟩
    show (writeBytes (writeBytes (List.replicate 22 0 ++ skb.buf)
        (skb.macOff + 14) (be16 (encapsFlags false) ++ be16 B ++ be16 A ++ [0, 0]))
        (skb.macOff + 12) (be16 ETH_P_TRILL)).drop (skb.macOff + 14 + 8) =
      skb.buf.drop skb.macOff
    rw [drop_writeBytes_of_le _ _ _ _
      (by simp only [be16, List.length_cons, List.length_nil]; omega)]
    rw [drop_writeBytes_of_le _ _ _ _
      (by simp only [be16, List.length_append, List.length_cons, List.length_nil]; omega)]
    rw [drop_replicate_append 22 (skb.macOff + 14 + 8) 0 skb.buf (by omega)]
    have h0 : skb.macOff + 14 + 8 - 22 = skb.macOff := by omega
    rw [h0]

/-- Witness for C7 at the concrete end-station frame skbE, A = 2,
B = 3: the learning hint and the byte-identical delivered inner
frame. -/
theorem claim_C7_witness :
    ∃ skb1, rbr_encaps envW skbE 2 3 false = some skb1 ∧
      Action.fdbUpdateNick [6, 6, 6, 6, 6, 6] 10 2 ∈
        rbr_decaps envW skb1 TRILL_HDR_SIZE 10 true ∧
      ∃ s, deliveredSkb s (rbr_decaps envW skb1 TRILL_HDR_SIZE 10 true) ∧
        s.buf.drop s.macOff = skbE.buf.drop skbE.macOff :=
  claim_C7 envW envW skbE 2 3 10 (by decide) (by decide) (by decide) (by decide)

end Trill
